import Mathlib

set_option maxRecDepth 8000
set_option maxHeartbeats 1200000

namespace JailReport

/-!
Shallow embedding of the line-classification core of `report.py`
(Tarrant County booked-in jail report parser).

Strings are modelled as `List Char`.  All text handled by the parser is
ASCII, so Python's `str.upper`, `str.lower`, `str.strip`, `str.title` and
the `re` character classes are modelled on ASCII code points.  Python
regular expressions are modelled by a small backtracking engine (`reRun`)
whose alternation is ordered and whose repetition is greedy, matching the
leftmost-then-greedy semantics of the `re` module; every source pattern is
transcribed into this engine one construct at a time.
-/

-- ---------------------------------------------------------------------------
-- ASCII character classes
-- ---------------------------------------------------------------------------

def isUpperCh (c : Char) : Bool := 65 ≤ c.toNat && c.toNat ≤ 90
def isLowerCh (c : Char) : Bool := 97 ≤ c.toNat && c.toNat ≤ 122
def isDigitCh (c : Char) : Bool := 48 ≤ c.toNat && c.toNat ≤ 57
def isAlphaCh (c : Char) : Bool := isUpperCh c || isLowerCh c

/-- Python regex class `\s` on ASCII: space, tab, newline, vertical tab,
form feed, carriage return. -/
def isSpaceCh (c : Char) : Bool := c.toNat = 32 || (9 ≤ c.toNat && c.toNat ≤ 13)

/-- Python regex word character `\w` on ASCII (letters, digits, underscore). -/
def isWordCh (c : Char) : Bool := isAlphaCh c || isDigitCh c || c.toNat = 95

def toUpperCh (c : Char) : Char := if isLowerCh c then Char.ofNat (c.toNat - 32) else c
def toLowerCh (c : Char) : Char := if isUpperCh c then Char.ofNat (c.toNat + 32) else c
def upperStr (s : List Char) : List Char := s.map toUpperCh

-- ---------------------------------------------------------------------------
-- Python string primitives
-- ---------------------------------------------------------------------------

/-- Remove the longest suffix of characters satisfying `p`. -/
def rstripBy (p : Char → Bool) : List Char → List Char
  | [] => []
  | c :: rest =>
    match rstripBy p rest with
    | [] => if p c then [] else [c]
    | d :: t => c :: d :: t

/-- Python `str.strip(chars)`: drop characters satisfying `p` from both ends. -/
def stripBy (p : Char → Bool) (s : List Char) : List Char := rstripBy p (s.dropWhile p)

/-- Python `str.strip()` (whitespace from both ends). -/
def pyStrip (s : List Char) : List Char := stripBy isSpaceCh s

/-- Character set of Python `str.strip(" -\t")` used on charge chunks. -/
def isSepCh (c : Char) : Bool := c.toNat = 32 || c.toNat = 45 || c.toNat = 9

/-- Python `str.strip(" -\t")`. -/
def stripSep (s : List Char) : List Char := stripBy isSepCh s

/-- Collapse every whitespace run to one space (`re.sub(r"\s+", " ", s)`);
the flag records whether the previous character was whitespace. -/
def squashAux : Bool → List Char → List Char
  | _, [] => []
  | prevWs, c :: rest =>
    if isSpaceCh c then
      if prevWs then squashAux true rest else ' ' :: squashAux true rest
    else c :: squashAux false rest

/-- Source `normalize_ws`: collapse whitespace runs to single spaces, then strip. -/
def normalize_ws (s : List Char) : List Char := pyStrip (squashAux false s)

def startsWithL : List Char → List Char → Bool
  | [], _ => true
  | _ :: _, [] => false
  | p :: ps, c :: cs => p = c && startsWithL ps cs

/-- Python substring containment `pat in s`. -/
def containsSub (s pat : List Char) : Bool :=
  match s with
  | [] => startsWithL pat []
  | _ :: rest => startsWithL pat s || containsSub rest pat

/-- Python membership `x in seen` for a collection of strings. -/
def elemL (x : List Char) : List (List Char) → Bool
  | [] => false
  | y :: rest => if y = x then true else elemL x rest

def countL (x : List Char) : List (List Char) → Nat
  | [] => 0
  | y :: rest => (if y = x then 1 else 0) + countL x rest

def titleAux : Bool → List Char → List Char
  | _, [] => []
  | prevAlpha, c :: rest =>
    (if isAlphaCh c then (if prevAlpha then toLowerCh c else toUpperCh c) else c) ::
      titleAux (isAlphaCh c) rest

/-- Python `str.title()` on ASCII text. -/
def pyTitle (s : List Char) : List Char := titleAux false s

/-- Python `", ".join(items)`. -/
def joinCommaSpace : List (List Char) → List Char
  | [] => []
  | [x] => x
  | x :: y :: rest => x ++ (", ").toList ++ joinCommaSpace (y :: rest)

/-- Python slice `s[a:b]` with the usual clamping. -/
def sliceStr (s : List Char) (a b : Nat) : List Char := (s.take b).drop a

-- ---------------------------------------------------------------------------
-- Backtracking regex engine (ordered alternation, greedy repetition)
-- ---------------------------------------------------------------------------

abbrev REnv := List (Nat × List Char)

/-- Regex syntax: empty, single character from a class, sequencing, ordered
alternation, greedy star, numbered capture group, and the zero-width
assertion used for a `\b` that follows a word character (succeeds at end of
input or when the next character is not a word character). -/
inductive RE where
  | eps : RE
  | chc : (Char → Bool) → RE
  | cat : RE → RE → RE
  | alt : RE → RE → RE
  | star : RE → RE
  | grp : Nat → RE → RE
  | nwb : RE

/-- CPS backtracking matcher.  Alternation prefers the left branch and the
star prefers consuming (both as in Python `re`); the success continuation
receives the rest of the input and the capture environment.  Fuel only
bounds the recursion depth; every use supplies enough fuel for the
pattern at hand. -/
def reRun : Nat → RE → List Char → REnv → (List Char → REnv → Option REnv) → Option REnv
  | 0, _, _, _, _ => none
  | _ + 1, .eps, s, env, k => k s env
  | _ + 1, .nwb, s, env, k =>
    match s with
    | [] => k s env
    | c :: _ => if isWordCh c then none else k s env
  | _ + 1, .chc p, s, env, k =>
    match s with
    | [] => none
    | c :: rest => if p c then k rest env else none
  | fuel + 1, .cat a b, s, env, k => reRun fuel a s env (fun s1 e1 => reRun fuel b s1 e1 k)
  | fuel + 1, .alt a b, s, env, k =>
    match reRun fuel a s env k with
    | some o => some o
    | none => reRun fuel b s env k
  | fuel + 1, .star a, s, env, k =>
    match reRun fuel a s env (fun s1 e1 =>
        if s1.length < s.length then reRun fuel (.star a) s1 e1 k else none) with
    | some o => some o
    | none => k s env
  | fuel + 1, .grp i a, s, env, k =>
    reRun fuel a s env (fun s1 e1 => k s1 ((i, s.take (s.length - s1.length)) :: e1))

def rePlus (a : RE) : RE := .cat a (.star a)
def reOpt (a : RE) : RE := .alt a .eps

def reExact : Nat → RE → RE
  | 0, _ => .eps
  | n + 1, a => .cat a (reExact n a)

def reUpTo : Nat → RE → RE
  | 0, _ => .eps
  | n + 1, a => .alt (.cat a (reUpTo n a)) .eps

/-- Bounded repetition `a{lo,hi}` (greedy). -/
def reRep (lo hi : Nat) (a : RE) : RE := .cat (reExact lo a) (reUpTo (hi - lo) a)

def reChar (c : Char) : RE := .chc (fun x => x = c)

def reLitL : List Char → RE
  | [] => .eps
  | c :: rest => .cat (reChar c) (reLitL rest)

/-- Ordered alternation of literal words. -/
def reAlts : List (List Char) → RE
  | [] => .chc (fun _ => false)
  | [t] => reLitL t
  | t :: u :: rest => .alt (reLitL t) (reAlts (u :: rest))

def wsPlusRE : RE := rePlus (.chc isSpaceCh)
def wsStarRE : RE := .star (.chc isSpaceCh)

/-- Generous fuel: recursion depth is bounded by pattern size plus input
length, far below this. -/
def fuelFor (s : List Char) : Nat := s.length + 800

/-- Anchored match of the whole string (`re.match` of a `^...$` pattern). -/
def reFull (r : RE) (s : List Char) : Option REnv :=
  reRun (fuelFor s) r s [] (fun s1 e1 => if s1 = [] then some e1 else none)

/-- Match of the pattern against some prefix of the string
(`re.match` of a pattern without `$`). -/
def rePrefixHit (r : RE) (s : List Char) : Option REnv :=
  reRun (fuelFor s) r s [] (fun _ e1 => some e1)

def envLookup (i : Nat) : REnv → Option (List Char)
  | [] => none
  | (j, v) :: rest => if j = i then some v else envLookup i rest

/-- Leftmost position whose whole suffix matches the pattern (for patterns
anchored at the end of the line). -/
def findFullFrom (r : RE) : Nat → List Char → Option Nat
  | i, [] => if (reFull r []).isSome then some i else none
  | i, c :: rest =>
    if (reFull r (c :: rest)).isSome then some i else findFullFrom r (i + 1) rest

/-- Leftmost position where the pattern matches some prefix of the suffix. -/
def findPrefixFrom (r : RE) : Nat → List Char → Option Nat
  | i, [] => if (rePrefixHit r []).isSome then some i else none
  | i, c :: rest =>
    if (rePrefixHit r (c :: rest)).isSome then some i else findPrefixFrom r (i + 1) rest

/-- Leftmost search for an end-anchored pattern, returning its captures. -/
def searchFullEnv (r : RE) : List Char → Option REnv
  | [] => reFull r []
  | c :: rest =>
    match reFull r (c :: rest) with
    | some e => some e
    | none => searchFullEnv r rest

/-- Leftmost search for an unanchored pattern, returning its captures. -/
def searchPrefixEnv (r : RE) : List Char → Option REnv
  | [] => rePrefixHit r []
  | c :: rest =>
    match rePrefixHit r (c :: rest) with
    | some e => some e
    | none => searchPrefixEnv r rest

/-- Leftmost search for a pattern whose first character class is a word
character and that starts with `\b`: a match may begin at a position only
when it is the start of the string or the previous character is not a word
character. -/
def searchPrefixEnvWB (r : RE) : Bool → List Char → Option REnv
  | _, [] => none
  | prevWord, c :: rest =>
    match (if prevWord then none else rePrefixHit r (c :: rest)) with
    | some e => some e
    | none => searchPrefixEnvWB r (isWordCh c) rest

/-- Python `re.sub(pat, "", s)` for a pattern anchored at the end of the
line: the single replacement removes everything from the leftmost position
whose suffix fully matches. -/
def subEndAnchored (r : RE) (s : List Char) : List Char :=
  match findFullFrom r 0 s with
  | some i => s.take i
  | none => s

/-- Python `re.sub(pat, "", s)` for a pattern ending in `.*$` on text with
no newline: the removal runs from the leftmost match of the pattern head to
the end of the line. -/
def subToLineEnd (r : RE) (s : List Char) : List Char :=
  match findPrefixFrom r 0 s with
  | some i => s.take i
  | none => s

-- ---------------------------------------------------------------------------
-- Source regex patterns (report.py lines 71-90)
-- ---------------------------------------------------------------------------

/-- Class `[A-Z' \-]` (apostrophe 39, space 32, hyphen 45). -/
def clsNameTail (c : Char) : Bool :=
  isUpperCh c || c.toNat = 39 || c.toNat = 32 || c.toNat = 45

/-- Class `[A-Z0-9' \-]`. -/
def clsNameTail2 (c : Char) : Bool :=
  isUpperCh c || isDigitCh c || c.toNat = 39 || c.toNat = 32 || c.toNat = 45

/-- Class `[A-Z \-']`. -/
def clsCityCh (c : Char) : Bool :=
  isUpperCh c || c.toNat = 32 || c.toNat = 45 || c.toNat = 39

/-- Class `[A-Z0-9]`. -/
def clsAddrHead (c : Char) : Bool := isUpperCh c || isDigitCh c

/-- Class `[A-Z0-9 \-']`. -/
def clsAddrMid (c : Char) : Bool :=
  isUpperCh c || isDigitCh c || c.toNat = 32 || c.toNat = 45 || c.toNat = 39

def digitRE : RE := .chc isDigitCh
def slashRE : RE := reChar (Char.ofNat 47)
def commaRE : RE := reChar (Char.ofNat 44)
def hyphenRE : RE := reChar (Char.ofNat 45)

/-- Pattern `\d{1,2}/\d{1,2}/\d{4}`. -/
def dateBodyRE : RE :=
  .cat (reRep 1 2 digitRE)
    (.cat slashRE (.cat (reRep 1 2 digitRE) (.cat slashRE (reExact 4 digitRE))))

/-- Name part `[A-Z][A-Z' \-]+,\s*[A-Z0-9][A-Z0-9' \-]+` shared by
`NAME_CID_DATE_RE` and `NAME_ONLY_RE`. -/
def nameBodyRE : RE :=
  .cat (.chc isUpperCh) (.cat (rePlus (.chc clsNameTail))
    (.cat commaRE (.cat wsStarRE
      (.cat (.chc (fun c => isUpperCh c || isDigitCh c)) (rePlus (.chc clsNameTail2))))))

/-- Source `NAME_CID_DATE_RE` with the groups name (0), cid (1), date (2). -/
def NAME_CID_DATE_RE : RE :=
  .cat (.grp 0 nameBodyRE)
    (.cat wsPlusRE (.cat (.grp 1 (reRep 6 7 digitRE)) (.cat wsPlusRE (.grp 2 dateBodyRE))))

/-- Source `CID_DATE_ONLY_RE` with the groups cid (1), date (2). -/
def CID_DATE_ONLY_RE : RE :=
  .cat (.grp 1 (reRep 6 7 digitRE)) (.cat wsPlusRE (.grp 2 dateBodyRE))

/-- Source `NAME_ONLY_RE`. -/
def NAME_ONLY_RE : RE := nameBodyRE

/-- Optional `(?:-\d{4})?` after a five-digit postal code. -/
def zip4OptRE : RE := reOpt (.cat hyphenRE (reExact 4 digitRE))

/-- Source `CITY_STATE_ZIP_RE`: `^([A-Z][A-Z \-']+)\s+TX\s+(\d{5})(?:-\d{4})?$`
with the city in group 0. -/
def CITY_STATE_ZIP_RE : RE :=
  .cat (.grp 0 (.cat (.chc isUpperCh) (rePlus (.chc clsCityCh))))
    (.cat wsPlusRE (.cat (reLitL (("TX").toList))
      (.cat wsPlusRE (.cat (reExact 5 digitRE) zip4OptRE))))

/-- Source `CITY_STATE_RE`: `^([A-Z][A-Z \-']+)\s+TX(?:\s+\d{5}(?:-\d{4})?)?$`
with the city in group 0. -/
def CITY_STATE_RE : RE :=
  .cat (.grp 0 (.cat (.chc isUpperCh) (rePlus (.chc clsCityCh))))
    (.cat wsPlusRE (.cat (reLitL (("TX").toList))
      (reOpt (.cat wsPlusRE (.cat (reExact 5 digitRE) zip4OptRE)))))

/-- Source `STREET_SUFFIX_RE` word list. -/
def STREET_SUFFIXES : List (List Char) :=
  [("AVE").toList, ("AV").toList, ("ST").toList, ("DR").toList, ("RD").toList,
   ("LN").toList, ("BLVD").toList, ("CT").toList, ("CIR").toList, ("PKWY").toList,
   ("HWY").toList, ("TER").toList, ("PL").toList, ("WAY").toList, ("TRL").toList,
   ("LOOP").toList, ("FWY").toList, ("SQ").toList, ("PARK").toList, ("RUN").toList,
   ("HOLW").toList, ("HOLLOW").toList, ("ROW").toList, ("PT").toList, ("PIKE").toList,
   ("CV").toList, ("COVE").toList]

/-- Word list of `INLINE_STREET_ADDR_RE` (a shorter list than
`STREET_SUFFIX_RE`). -/
def INLINE_SUFFIXES : List (List Char) :=
  [("AVE").toList, ("AV").toList, ("ST").toList, ("DR").toList, ("RD").toList,
   ("LN").toList, ("BLVD").toList, ("CT").toList, ("CIR").toList, ("PKWY").toList,
   ("HWY").toList, ("TER").toList, ("PL").toList, ("WAY").toList, ("TRL").toList,
   ("LOOP").toList, ("FWY").toList, ("SQ").toList, ("CV").toList, ("COVE").toList]

/-- Source `LEADING_STREET_NUM_RE`: `^\d{1,6}\s+` (used with `re.match`). -/
def LEADING_STREET_NUM_RE : RE := .cat (reRep 1 6 digitRE) wsPlusRE

/-- Source `TRAILING_CITY_TX_ZIP_RE`:
`\s+([A-Z][A-Z \-']+)\s+TX\s+\d{5}(?:-\d{4})?\s*$`. -/
def TRAILING_CITY_TX_ZIP_RE : RE :=
  .cat wsPlusRE (.cat (.chc isUpperCh) (.cat (rePlus (.chc clsCityCh))
    (.cat wsPlusRE (.cat (reLitL (("TX").toList))
      (.cat wsPlusRE (.cat (reExact 5 digitRE) (.cat zip4OptRE wsStarRE)))))))

/-- The inline cleanup pattern `\s+TX\s+\d{5}(?:-\d{4})?\s*$` used by
`clean_charge_line`. -/
def TX_ZIP_TAIL_RE : RE :=
  .cat wsPlusRE (.cat (reLitL (("TX").toList))
    (.cat wsPlusRE (.cat (reExact 5 digitRE) (.cat zip4OptRE wsStarRE))))

/-- Source `INLINE_STREET_ADDR_RE` up to its trailing `.*$` (the removal to
the line end is handled by `subToLineEnd`):
`\s+\d{1,6}\s+[A-Z0-9][A-Z0-9 \-']{1,40}\s+(AVE|...|CV|COVE)\b`. -/
def INLINE_STREET_ADDR_RE : RE :=
  .cat wsPlusRE (.cat (reRep 1 6 digitRE) (.cat wsPlusRE (.cat (.chc clsAddrHead)
    (.cat (reRep 1 40 (.chc clsAddrMid))
      (.cat wsPlusRE (.cat (reAlts INLINE_SUFFIXES) .nwb))))))

/-- Pattern of the third, permissive pass of `extract_city_from_addr_lines`:
`\b([A-Z][A-Z \-']+),?\s+TX\s+\d{5}(?:-\d{4})?\b` (used with `re.search`). -/
def M3_CITY_TX_ZIP_RE : RE :=
  .cat (.grp 0 (.cat (.chc isUpperCh) (rePlus (.chc clsCityCh))))
    (.cat (reOpt commaRE) (.cat wsPlusRE (.cat (reLitL (("TX").toList))
      (.cat wsPlusRE (.cat (reExact 5 digitRE) (.cat zip4OptRE .nwb))))))

/-- Pattern of `parse_booked_in`'s report-date scan:
`(\d{1,2}/\d{1,2}/\d{4})`, with the three digit runs captured separately. -/
def DATE_SCAN_RE : RE :=
  .cat (.grp 0 (reRep 1 2 digitRE))
    (.cat slashRE (.cat (.grp 1 (reRep 1 2 digitRE)) (.cat slashRE (.grp 2 (reExact 4 digitRE)))))

-- ---------------------------------------------------------------------------
-- Booking-number anchors (BOOKING_RE = `\b\d{2}-\d{7}\b`, finditer)
-- ---------------------------------------------------------------------------

/-- Whether `\d{2}-\d{7}\b` matches at the head of the string. -/
def bookingAtHead : List Char → Bool
  | d1 :: d2 :: h :: rest =>
    isDigitCh d1 && isDigitCh d2 && h.toNat = 45 && (rest.take 7).length = 7 &&
    (rest.take 7).all isDigitCh &&
    (match rest.drop 7 with | [] => true | c :: _ => !isWordCh c)
  | _ => false

/-- Scanner state: whether the previous character is a word character (for
the leading `\b`), the number of characters still inside the last emitted
match (a match has fixed length 10), and the current index. -/
def bookingSpansAux : Bool → Nat → Nat → List Char → List (Nat × Nat)
  | _, _, _, [] => []
  | _, skip + 1, i, _ :: rest => bookingSpansAux true skip (i + 1) rest
  | prevWord, 0, i, c :: rest =>
    if !prevWord && bookingAtHead (c :: rest) then
      (i, i + 10) :: bookingSpansAux true 9 (i + 1) rest
    else bookingSpansAux (isWordCh c) 0 (i + 1) rest

/-- Source `BOOKING_RE.finditer`: the leftmost, non-overlapping spans
(start, end) of `\b\d{2}-\d{7}\b`. -/
def bookingSpans (s : List Char) : List (Nat × Nat) := bookingSpansAux false 0 0 s

-- ---------------------------------------------------------------------------
-- Pattern-library matchers
-- ---------------------------------------------------------------------------

def matchNameCidDate (ln : List Char) : Option (List Char × List Char × List Char) :=
  match reFull NAME_CID_DATE_RE ln with
  | none => none
  | some env =>
    match envLookup 0 env, envLookup 1 env, envLookup 2 env with
    | some n, some c, some d => some (n, c, d)
    | _, _, _ => none

def matchCidDate (ln : List Char) : Option (List Char × List Char) :=
  match reFull CID_DATE_ONLY_RE ln with
  | none => none
  | some env =>
    match envLookup 1 env, envLookup 2 env with
    | some c, some d => some (c, d)
    | _, _ => none

def matchNameOnly (ln : List Char) : Bool := (reFull NAME_ONLY_RE ln).isSome

def matchCityStateZip (s : List Char) : Option (List Char) :=
  match reFull CITY_STATE_ZIP_RE s with
  | none => none
  | some env => envLookup 0 env

def matchCityState (s : List Char) : Option (List Char) :=
  match reFull CITY_STATE_RE s with
  | none => none
  | some env => envLookup 0 env

def tokenWithWB (t s : List Char) : Bool :=
  startsWithL t s && (match s.drop t.length with | [] => true | c :: _ => !isWordCh c)

def suffixTokenHere (s : List Char) : Bool := STREET_SUFFIXES.any (fun t => tokenWithWB t s)

/-- Source `STREET_SUFFIX_RE.search`: some street-suffix word occurs with
word boundaries on both sides. -/
def streetSuffixSearch : Bool → List Char → Bool
  | _, [] => false
  | prevWord, c :: rest =>
    (!prevWord && suffixTokenHere (c :: rest)) || streetSuffixSearch (isWordCh c) rest

-- ---------------------------------------------------------------------------
-- report.py helper functions
-- ---------------------------------------------------------------------------

def JUNK_SUBSTRINGS : List (List Char) :=
  [("INMATES BOOKED IN DURING THE PAST").toList, ("REPORT DATE:").toList,
   ("PAGE:").toList, ("INMATE NAME IDENTIFIER").toList, ("CID").toList,
   ("BOOK IN DATE").toList, ("BOOKING NO.").toList, ("DESCRIPTION").toList]

/-- Source `is_junk_line`. -/
def is_junk_line (ln : List Char) : Bool :=
  let up := upperStr (pyStrip ln)
  if up = [] then true else JUNK_SUBSTRINGS.any (fun j => containsSub up j)

/-- Source `looks_like_address`. -/
def looks_like_address (ln : List Char) : Bool :=
  let up := upperStr (pyStrip ln)
  if up = [] then false
  else if (matchCityStateZip up).isSome || (matchCityState up).isSome then true
  else if (rePrefixHit LEADING_STREET_NUM_RE up).isSome then true
  else streetSuffixSearch false up

/-- Source `clean_charge_line`. -/
def clean_charge_line (raw : List Char) : List Char :=
  if raw = [] then []
  else
    let s := normalize_ws raw
    if is_junk_line s then []
    else
      let s1 := pyStrip (subToLineEnd INLINE_STREET_ADDR_RE s)
      let s2 := pyStrip (subEndAnchored TRAILING_CITY_TX_ZIP_RE s1)
      pyStrip (subEndAnchored TX_ZIP_TAIL_RE s2)

def firstSome : List (Option (List Char)) → Option (List Char)
  | [] => none
  | some v :: _ => some v
  | none :: rest => firstSome rest

/-- Source `extract_city_from_addr_lines`: three priority passes over the
address lines, the third trying the end-anchored and then the permissive
embedded pattern per line. -/
def extract_city_from_addr_lines (addr_lines : List (List Char)) : List Char :=
  let ups := addr_lines.map (fun ln => upperStr (normalize_ws ln))
  match firstSome (ups.map matchCityStateZip) with
  | some city => normalize_ws (pyTitle city)
  | none =>
    match firstSome (ups.map matchCityState) with
    | some city => normalize_ws (pyTitle city)
    | none =>
      match firstSome (ups.map (fun up =>
          match searchFullEnv CITY_STATE_ZIP_RE up with
          | some env => envLookup 0 env
          | none =>
            match searchPrefixEnvWB M3_CITY_TX_ZIP_RE false up with
            | some env => envLookup 0 env
            | none => none)) with
      | some city => normalize_ws (pyTitle city)
      | none => ("Unknown").toList

-- ---------------------------------------------------------------------------
-- Working record, content routing, finalization
-- ---------------------------------------------------------------------------

/-- The mutable working record of `parse_booked_in` (keys name, cid,
book_in_date, addr_lines, charges). -/
structure Rec0 where
  name : List Char
  cid : List Char
  book_in_date : List Char
  addr_lines : List (List Char)
  charges : List (List Char)
deriving DecidableEq, Repr

/-- For each anchor span, the text from its end to the start of the next
anchor (or the line end), stripped like `s[start:end].strip(" -\t")`. -/
def chunksOf (s : List Char) : List (Nat × Nat) → List (List Char)
  | [] => []
  | (_, e) :: rest =>
    let endPos := match rest with | [] => s.length | (s2, _) :: _ => s2
    stripSep (sliceStr s e endPos) :: chunksOf s rest

/-- Source `apply_content_line`, as its effect on the two accumulator
fields (the Python function mutates only `addr_lines` and `charges`). -/
def contentUpdate (A C : List (List Char)) (ln : List Char) :
    List (List Char) × List (List Char) :=
  let s := normalize_ws ln
  if s = [] || is_junk_line s then (A, C)
  else
    match bookingSpans s with
    | [] =>
      if looks_like_address s then (A ++ [s], C)
      else
        let cleaned := clean_charge_line s
        if cleaned = [] then (A, C)
        else
          match C with
          | [] => (A, [cleaned])
          | c0 :: cs =>
            (A, (c0 :: cs).dropLast ++ [normalize_ws ((c0 :: cs).getLastD [] ++ ' ' :: cleaned)])
    | (b0, e0) :: restSpans =>
      let pre := pyStrip (s.take b0)
      let A1 := if !pre.isEmpty && looks_like_address pre then A ++ [pre] else A
      let newCharges :=
        ((chunksOf s ((b0, e0) :: restSpans)).map clean_charge_line).filter (fun c => !c.isEmpty)
      (A1, C ++ newCharges)

def apply_content_line (rec : Rec0) (ln : List Char) : Rec0 :=
  let u := contentUpdate rec.addr_lines rec.charges ln
  { rec with addr_lines := u.1, charges := u.2 }

/-- Source `_split_name_with_embedded_booking`. -/
def split_name_with_embedded_booking (name_raw : List Char) :
    List Char × List (List Char) :=
  if name_raw = [] then (name_raw, [])
  else
    match bookingSpans name_raw with
    | [] => (pyStrip name_raw, [])
    | (b0, _) :: _ =>
      let remainder := name_raw.drop b0
      let extra :=
        ((chunksOf remainder (bookingSpans remainder)).map clean_charge_line).filter
          (fun c => !c.isEmpty)
      (pyStrip (name_raw.take b0), extra)

/-- A finalized record: exactly the keys the source `finalize_record`
returns (name, book_in_date, city, description). -/
structure BookedRec where
  name : List Char
  book_in_date : List Char
  city : List Char
  description : List Char
deriving DecidableEq, Repr

/-- The dedup loop of `finalize_record` (Python `seen` set and
`unique_charges` list). -/
def dedupCharges (seen : List (List Char)) : List (List Char) → List (List Char)
  | [] => []
  | c :: rest =>
    let cleaned := clean_charge_line c
    if !cleaned.isEmpty && !elemL cleaned seen then
      cleaned :: dedupCharges (cleaned :: seen) rest
    else dedupCharges seen rest

def finalize_charges (charges : List (List Char)) : List (List Char) :=
  dedupCharges [] charges

/-- Source `finalize_record`. -/
def finalize_record (rec : Rec0) : BookedRec :=
  let nameSplit := split_name_with_embedded_booking (pyStrip rec.name)
  let charges := nameSplit.2 ++ rec.charges
  let addr := (rec.addr_lines.filter (fun a => !a.isEmpty && !is_junk_line a)).map normalize_ws
  { name := nameSplit.1,
    book_in_date := pyStrip rec.book_in_date,
    city := extract_city_from_addr_lines addr,
    description := joinCommaSpace (finalize_charges charges) }

-- ---------------------------------------------------------------------------
-- The record assembler (per-line loop of parse_booked_in)
-- ---------------------------------------------------------------------------

structure PState where
  records : List BookedRec
  pending : Option (List Char × List Char)
  current : Option Rec0
deriving DecidableEq, Repr

def finalizeCurrent : Option Rec0 → List BookedRec
  | some c => [finalize_record c]
  | none => []

def applyCurrent (st : PState) (ln : List Char) : PState :=
  match st.current with
  | some c => { st with current := some (apply_content_line c ln) }
  | none => st

/-- One iteration of the line loop of `parse_booked_in`, transcribed
branch for branch. -/
def processLine (st : PState) (ln : List Char) : PState :=
  if is_junk_line ln then st
  else
    match matchNameCidDate ln with
    | some (nm, cid, dt) =>
      { records := st.records ++ finalizeCurrent st.current, pending := none,
        current := some ⟨nm, cid, dt, [], []⟩ }
    | none =>
      match matchCidDate ln with
      | some (cid, dt) =>
        { records := st.records ++ finalizeCurrent st.current,
          pending := some (cid, dt), current := none }
      | none =>
        match st.pending with
        | some (cid, dt) =>
          if matchNameOnly ln then
            { records := st.records, pending := none,
              current := some ⟨ln, cid, dt, [], []⟩ }
          else
            applyCurrent
              { st with pending := if st.current.isNone && !ln.isEmpty then none else st.pending }
              ln
        | none => applyCurrent st ln

def initState : PState := ⟨[], none, none⟩

/-- The comprehension `[l.strip() for l in lines if l.strip()]`. -/
def prepLines (lns : List (List Char)) : List (List Char) :=
  (lns.map pyStrip).filter (fun l => !l.isEmpty)

def processLines (st : PState) (lns : List (List Char)) : PState :=
  lns.foldl processLine st

/-- The assembler: the line loop of `parse_booked_in` over the whole
document plus the final flush of an open record. -/
def parseLines (lns : List (List Char)) : List BookedRec :=
  let st := processLines initState (prepLines lns)
  st.records ++ finalizeCurrent st.current

-- ---------------------------------------------------------------------------
-- Report-date extraction (parse_booked_in lines 269-274)
-- ---------------------------------------------------------------------------

def digitsToNat (s : List Char) : Nat := s.foldl (fun a c => a * 10 + (c.toNat - 48)) 0

/-- First `\d{1,2}/\d{1,2}/\d{4}` found anywhere in the first page text,
as the three parsed numbers (month, day, year). -/
def firstDateMatch (page : List Char) : Option (Nat × Nat × Nat) :=
  match searchPrefixEnv DATE_SCAN_RE page with
  | none => none
  | some env =>
    match envLookup 0 env, envLookup 1 env, envLookup 2 env with
    | some m, some d, some y => some (digitsToNat m, digitsToNat d, digitsToNat y)
    | _, _, _ => none

def isLeapYear (y : Nat) : Bool := (y % 4 == 0 && y % 100 != 0) || y % 400 == 0

def daysInMonth (m y : Nat) : Nat :=
  if m == 2 then (if isLeapYear y then 29 else 28)
  else if m == 4 || m == 6 || m == 9 || m == 11 then 30 else 31

/-- Modelled standard-library behavior: `datetime.strptime(x, "%m/%d/%Y")`
succeeds exactly on real calendar dates with month 1-12, day within the
month, year 1-9999; otherwise it raises `ValueError`, which
`parse_booked_in` catches. -/
def validDate (m d y : Nat) : Bool :=
  decide (1 ≤ m) && decide (m ≤ 12) && decide (1 ≤ d) && decide (d ≤ daysInMonth m y) &&
  decide (1 ≤ y) && decide (y ≤ 9999)

/-- Report-date step of `parse_booked_in`: the first date-shaped match on
the first page parsed via strptime; `none` models the silent
`datetime.now()` fallback. -/
def extract_report_date (page : List Char) : Option (Nat × Nat × Nat) :=
  match firstDateMatch page with
  | none => none
  | some (m, d, y) => if validDate m d y then some (m, d, y) else none

end JailReport

namespace JailReport

-- ---------------------------------------------------------------------------
-- Claim-statement definitions (formalizing the spec's wording)
-- ---------------------------------------------------------------------------

def emptyBooked : BookedRec := ⟨[], [], [], []⟩

def recAt (l : List BookedRec) (i : Nat) : BookedRec := l.getD i emptyBooked

/-- Whether an emitted record carries the given identifier text anywhere in
any of its fields. -/
def emittedCarries (r : BookedRec) (v : List Char) : Bool :=
  containsSub r.name v || containsSub r.book_in_date v ||
  containsSub r.city v || containsSub r.description v

/-- Whether a five-digit run starts here: five digits not followed by a
further digit. -/
def fiveDigitRunAt (s : List Char) : Bool :=
  decide ((s.take 5).length = 5) && (s.take 5).all isDigitCh &&
  (match s.drop 5 with | [] => true | c :: _ => !isDigitCh c)

/-- Whether a two-letter state-like token followed by a five-digit run
starts here (the token must end before the space). -/
def stateZipHere : List Char → Bool
  | a :: b :: c :: rest => isUpperCh a && isUpperCh b && decide (c = ' ') && fiveDigitRunAt rest
  | _ => false

def stateZipLeakAux : Bool → List Char → Bool
  | _, [] => false
  | prevWord, c :: rest =>
    (!prevWord && stateZipHere (c :: rest)) || stateZipLeakAux (isWordCh c) rest

/-- Spec wording of the no-address-leakage property: a 5-digit run
immediately preceded by a 2-letter state-like token occurs somewhere in
the string. -/
def stateZipLeak (s : List Char) : Bool := stateZipLeakAux false s

/-- Spec wording of deduplication: keep each string at its first
occurrence, drop later duplicates. -/
def keepFirst (seen : List (List Char)) : List (List Char) → List (List Char)
  | [] => []
  | x :: rest => if elemL x seen then keepFirst seen rest else x :: keepFirst (x :: seen) rest

/-- Whether every inter-anchor span, and the span after the last anchor,
contains at least one character (no two anchors immediately adjacent and
the last anchor not at the line end). -/
def spansGapsNonempty : List (Nat × Nat) → Nat → Bool
  | [], _ => true
  | [(_, e)], n => decide (e < n)
  | (_, e) :: (s2, e2) :: rest, n => decide (e < s2) && spansGapsNonempty ((s2, e2) :: rest) n

-- ---------------------------------------------------------------------------
-- Concrete inputs used by the claims
-- ---------------------------------------------------------------------------

/-- The four input lines of the spec's first example scenario (claim C1). -/
def c1Lines : List (List Char) :=
  [("SMITH, JOHN   1234567   1/2/2026").toList,
   ("123 MAIN ST").toList,
   ("FORT WORTH TX 76102 26-0000001 THEFT OF PROPERTY").toList,
   ("JONES, JANE   7654321   1/2/2026").toList]

def c5SplitLines (c : List Char) : List (List Char) :=
  [("1234567 1/2/2026").toList, ("SMITH, JOHN").toList, c]

def c5SingleLines (c : List Char) : List (List Char) :=
  [("SMITH, JOHN   1234567   1/2/2026").toList, c]

-- ---------------------------------------------------------------------------
-- The claims as stated (for the corrected ones, the proposition refuted)
-- ---------------------------------------------------------------------------

/-- Claim C1 as stated: the example scenario yields the two described
records, each carrying its identifier. -/
def ClaimC1 : Prop :=
  (parseLines c1Lines).length = 2 ∧
  (recAt (parseLines c1Lines) 0).name = ("SMITH, JOHN").toList ∧
  (recAt (parseLines c1Lines) 0).city = ("Fort Worth").toList ∧
  (recAt (parseLines c1Lines) 0).description = ("THEFT OF PROPERTY").toList ∧
  emittedCarries (recAt (parseLines c1Lines) 0) (("1234567").toList) = true ∧
  (recAt (parseLines c1Lines) 1).name = ("JONES, JANE").toList ∧
  (recAt (parseLines c1Lines) 1).city = ("Unknown").toList ∧
  (recAt (parseLines c1Lines) 1).description = [] ∧
  emittedCarries (recAt (parseLines c1Lines) 1) (("7654321").toList) = true

/-- Claim C2 as stated: finalization deduplicates charges by
case-insensitive match, so no two distinct entries of the result are equal
up to letter case. -/
def ClaimC2 : Prop :=
  ∀ (frags : List (List Char)) (a b : List Char),
    a ∈ finalize_charges frags → b ∈ finalize_charges frags →
    upperStr a = upperStr b → a = b

/-- Claim C3 as stated: no record produced by the assembler has a charge
description containing a city/state/zip pattern. -/
def ClaimC3 : Prop :=
  ∀ (lns : List (List Char)) (r : BookedRec),
    r ∈ parseLines lns → stateZipLeak r.description = false

/-- Claim C4 as stated: a content line with exactly k anchors appends
exactly k charge fragments, the only permitted shortfall being empty spans
between immediately-adjacent anchors (so with all spans nonempty, exactly
k fragments are appended). -/
def ClaimC4 : Prop :=
  ∀ (A C : List (List Char)) (ln : List Char),
    is_junk_line (normalize_ws ln) = false →
    bookingSpans (normalize_ws ln) ≠ [] →
    spansGapsNonempty (bookingSpans (normalize_ws ln)) (normalize_ws ln).length = true →
    ((contentUpdate A C ln).2).length = C.length + (bookingSpans (normalize_ws ln)).length

/-- Claim C6 as stated: the charge-text cleaner is idempotent. -/
def ClaimC6 : Prop :=
  ∀ x : List Char, clean_charge_line (clean_charge_line x) = clean_charge_line x

/-- Claim C7 as stated: a finalized record carries the identifier that the
working record holds, whenever one was captured. -/
def ClaimC7 : Prop :=
  ∀ w : Rec0, w.cid ≠ [] → emittedCarries (finalize_record w) w.cid = true

/-- Claim C9 as stated: the current-date fallback occurs exactly when no
date-shaped pattern is found on the first page. -/
def ClaimC9 : Prop :=
  ∀ page : List Char, extract_report_date page = none ↔ firstDateMatch page = none

end JailReport

namespace JailReport

-- ---------------------------------------------------------------------------
-- Predicates used by the general theorems
-- ---------------------------------------------------------------------------

/-- The string `pat` occurs contiguously inside `s`. -/
def occursIn (pat s : List Char) : Prop := ∃ a b, s = a ++ pat ++ b

/-- Whitespace characters appear only as plain spaces. -/
def okCh (c : Char) : Bool := !isSpaceCh c || decide (c = ' ')

def allOk (s : List Char) : Bool := s.all okCh

/-- The head, when present, does not satisfy `p`. -/
def headSat (p : Char → Bool) : List Char → Bool
  | [] => true
  | c :: _ => !p c

/-- The last character, when present, does not satisfy `p`. -/
def lastSat (p : Char → Bool) : List Char → Bool
  | [] => true
  | [c] => !p c
  | _ :: c :: rest => lastSat p (c :: rest)

/-- No two adjacent plain spaces. -/
def noDbl : List Char → Bool
  | c :: d :: rest => !(decide (c = ' ') && decide (d = ' ')) && noDbl (d :: rest)
  | _ => true

/-- The shape of a `normalize_ws` output: whitespace only as single interior
spaces, none at either end. -/
def NormP (s : List Char) : Bool :=
  allOk s && noDbl s && headSat isSpaceCh s && lastSat isSpaceCh s

/-- Whether the trailing `\s+TX\s+\d{5}(?:-\d{4})?\s*$` pattern matches the
string (anywhere, anchored at the end). -/
def txZipTailFound (s : List Char) : Bool := (findFullFrom TX_ZIP_TAIL_RE 0 s).isSome

/-- Input of the C3 counterexample: a header and a content line whose
charge text carries an interior city/state/zip fragment. -/
def c3Lines : List (List Char) :=
  [("SMITH, JOHN   1234567   1/2/2026").toList,
   ("26-0000001 FRAUD TX 76102 CASE").toList]

/-- Content line of the C4 counterexample: two anchors separated by a
separator-only span. -/
def c4Line : List Char := ("26-0000001 - 26-0000002 THEFT").toList

end JailReport

namespace JailReport

-- ---------------------------------------------------------------------------
-- occursIn and substring lemmas
-- ---------------------------------------------------------------------------

theorem occursIn_refl (s : List Char) : occursIn s s := ⟨[], [], by simp⟩

theorem occursIn_nil (s : List Char) : occursIn [] s := ⟨s, [], by simp⟩

theorem occursIn_trans {x y z : List Char} (h1 : occursIn x y) (h2 : occursIn y z) :
    occursIn x z := by
  obtain ⟨a, b, rfl⟩ := h1
  obtain ⟨c, d, rfl⟩ := h2
  exact ⟨c ++ a, b ++ d, by simp⟩

theorem occursIn_take (s : List Char) (n : Nat) : occursIn (s.take n) s :=
  ⟨[], s.drop n, by simp⟩

theorem occursIn_drop (s : List Char) (n : Nat) : occursIn (s.drop n) s :=
  ⟨s.take n, [], by simp⟩

theorem occursIn_dropWhile (p : Char → Bool) (s : List Char) :
    occursIn (s.dropWhile p) s :=
  ⟨s.takeWhile p, [], by simp [List.takeWhile_append_dropWhile]⟩

theorem occursIn_ne_nil {m l : List Char} (h : occursIn m l) (hm : m ≠ []) : l ≠ [] := by
  obtain ⟨a, b, rfl⟩ := h
  simp [hm]

theorem rstripBy_eq_take (p : Char → Bool) : ∀ l : List Char, ∃ n, rstripBy p l = l.take n := by
  intro l
  induction l with
  | nil => exact ⟨0, rfl⟩
  | cons c rest ih =>
    obtain ⟨n, hn⟩ := ih
    match h : rstripBy p rest with
    | [] =>
      by_cases hc : p c
      · exact ⟨0, by simp [rstripBy, h, hc]⟩
      · exact ⟨1, by simp [rstripBy, h, hc]⟩
    | d :: t =>
      refine ⟨n + 1, ?_⟩
      have : rstripBy p (c :: rest) = c :: d :: t := by simp [rstripBy, h]
      rw [this, List.take_succ_cons, ← hn, h]

theorem occursIn_rstripBy (p : Char → Bool) (l : List Char) : occursIn (rstripBy p l) l := by
  obtain ⟨n, hn⟩ := rstripBy_eq_take p l
  rw [hn]; exact occursIn_take l n

theorem occursIn_stripBy (p : Char → Bool) (l : List Char) : occursIn (stripBy p l) l :=
  occursIn_trans (occursIn_rstripBy p (l.dropWhile p)) (occursIn_dropWhile p l)

theorem occursIn_sliceStr (s : List Char) (a b : Nat) : occursIn (sliceStr s a b) s :=
  occursIn_trans (occursIn_drop (s.take b) a) (occursIn_take s b)

theorem occursIn_map {m l : List Char} (f : Char → Char) (h : occursIn m l) :
    occursIn (m.map f) (l.map f) := by
  obtain ⟨a, b, rfl⟩ := h
  exact ⟨a.map f, b.map f, by simp⟩

theorem startsWithL_iff (p : List Char) : ∀ s : List Char,
    startsWithL p s = true ↔ ∃ t, s = p ++ t := by
  induction p with
  | nil => intro s; simp [startsWithL]
  | cons x ps ih =>
    intro s
    match s with
    | [] => simp [startsWithL]
    | c :: cs =>
      simp only [startsWithL, Bool.and_eq_true, decide_eq_true_eq, ih cs]
      constructor
      · rintro ⟨rfl, t, rfl⟩; exact ⟨t, rfl⟩
      · rintro ⟨t, ht⟩
        rw [List.cons_append] at ht
        cases ht
        exact ⟨rfl, t, rfl⟩

theorem containsSub_iff (pat : List Char) : ∀ s : List Char,
    containsSub s pat = true ↔ occursIn pat s := by
  intro s
  induction s with
  | nil =>
    simp only [containsSub, startsWithL_iff]
    constructor
    · rintro ⟨t, ht⟩
      cases pat with
      | nil => exact occursIn_nil []
      | cons x xs => simp at ht
    · rintro ⟨a, b, hab⟩
      have hlen := congrArg List.length hab
      simp only [List.length_nil, List.length_append] at hlen
      have hpat : pat = [] := List.length_eq_zero.mp (by omega)
      exact ⟨[], by simp [hpat]⟩
  | cons c rest ih =>
    simp only [containsSub, Bool.or_eq_true, startsWithL_iff, ih]
    constructor
    · rintro (⟨t, ht⟩ | ⟨a, b, rfl⟩)
      · exact ⟨[], t, by simpa using ht⟩
      · exact ⟨c :: a, b, by simp⟩
    · rintro ⟨a, b, hab⟩
      cases a with
      | nil => exact Or.inl ⟨b, by simpa using hab⟩
      | cons a0 a2 =>
        rw [List.cons_append, List.cons_append] at hab
        injection hab with h1 h2
        exact Or.inr ⟨a2, b, h2⟩

theorem containsSub_mono {m l pat : List Char} (hml : occursIn m l)
    (h : containsSub m pat = true) : containsSub l pat = true := by
  rw [containsSub_iff] at h ⊢
  exact occursIn_trans h hml

-- ---------------------------------------------------------------------------
-- allOk / noDbl / headSat / lastSat lemmas
-- ---------------------------------------------------------------------------

theorem allOk_of_occursIn {m l : List Char} (hml : occursIn m l)
    (h : allOk l = true) : allOk m = true := by
  obtain ⟨a, b, rfl⟩ := hml
  simp only [allOk, List.all_append, Bool.and_eq_true] at h
  exact h.1.2

theorem noDbl_tail {c : Char} {l : List Char} (h : noDbl (c :: l) = true) :
    noDbl l = true := by
  match l with
  | [] => rfl
  | d :: t =>
    simp only [noDbl, Bool.and_eq_true] at h
    exact h.2

theorem noDbl_append_right : ∀ (a b : List Char), noDbl (a ++ b) = true → noDbl b = true := by
  intro a
  induction a with
  | nil => intro b h; exact h
  | cons c a2 ih => intro b h; exact ih b (noDbl_tail h)

theorem noDbl_append_left : ∀ (a b : List Char), noDbl (a ++ b) = true → noDbl a = true := by
  intro a
  induction a with
  | nil => intro b h; rfl
  | cons c a2 ih =>
    intro b h
    match a2, h with
    | [], _ => rfl
    | d :: a3, h =>
      rw [List.cons_append, List.cons_append] at h
      simp only [noDbl, Bool.and_eq_true] at h
      obtain ⟨hp, ht⟩ := h
      rw [← List.cons_append] at ht
      simp only [noDbl, Bool.and_eq_true]
      exact ⟨hp, ih b ht⟩

theorem noDbl_of_occursIn {m l : List Char} (hml : occursIn m l)
    (h : noDbl l = true) : noDbl m = true := by
  obtain ⟨a, b, rfl⟩ := hml
  rw [List.append_assoc] at h
  exact noDbl_append_left m b (noDbl_append_right a (m ++ b) h)

theorem headSat_dropWhile (p : Char → Bool) (l : List Char) :
    headSat p (l.dropWhile p) = true := by
  induction l with
  | nil => rfl
  | cons c rest ih =>
    by_cases hc : p c
    · simpa [List.dropWhile_cons, hc] using ih
    · simp [List.dropWhile_cons, hc, headSat]

theorem dropWhile_eq_self_of_headSat {p : Char → Bool} {l : List Char}
    (h : headSat p l = true) : l.dropWhile p = l := by
  match l with
  | [] => rfl
  | c :: rest =>
    have : p c = false := by simpa [headSat] using h
    simp [List.dropWhile_cons, this]

theorem rstripBy_cons_shape (p : Char → Bool) (c : Char) (l : List Char) :
    rstripBy p (c :: l) = [] ∨ ∃ t, rstripBy p (c :: l) = c :: t := by
  match h : rstripBy p l with
  | [] =>
    by_cases hc : p c
    · exact Or.inl (by simp [rstripBy, h, hc])
    · exact Or.inr ⟨[], by simp [rstripBy, h, hc]⟩
  | d :: t => exact Or.inr ⟨d :: t, by simp [rstripBy, h]⟩

theorem rstripBy_cons_not (p : Char → Bool) (c : Char) (l : List Char)
    (hc : p c = false) : ∃ t, rstripBy p (c :: l) = c :: t := by
  rcases rstripBy_cons_shape p c l with h | h
  · refine ⟨[], ?_⟩
    match hr : rstripBy p l with
    | [] => simp [rstripBy, hr, hc]
    | d :: t => simp [rstripBy, hr] at h
  · exact h

theorem headSat_rstripBy (p q : Char → Bool) (l : List Char)
    (h : headSat q l = true) : headSat q (rstripBy p l) = true := by
  match l with
  | [] => rfl
  | c :: rest =>
    rcases rstripBy_cons_shape p c rest with hs | ⟨t, hs⟩
    · rw [hs]; rfl
    · rw [hs]; simpa [headSat] using h

theorem lastSat_rstripBy (p : Char → Bool) : ∀ l : List Char,
    lastSat p (rstripBy p l) = true := by
  intro l
  induction l with
  | nil => rfl
  | cons c rest ih =>
    match h : rstripBy p rest with
    | [] =>
      by_cases hc : p c
      · simp [rstripBy, h, hc, lastSat]
      · simp [rstripBy, h, hc, lastSat]
    | d :: t =>
      have hstep : rstripBy p (c :: rest) = c :: d :: t := by simp [rstripBy, h]
      rw [hstep]
      show lastSat p (d :: t) = true
      rw [← h]; exact ih

theorem rstripBy_eq_self_of_lastSat (p : Char → Bool) : ∀ l : List Char,
    lastSat p l = true → rstripBy p l = l := by
  intro l
  induction l with
  | nil => intro h; rfl
  | cons c rest ih =>
    intro h
    match rest, h with
    | [], h =>
      have : p c = false := by simpa [lastSat] using h
      simp [rstripBy, this]
    | d :: t, h =>
      have hrest : lastSat p (d :: t) = true := h
      have hih := ih hrest
      show (match rstripBy p (d :: t) with
            | [] => if p c = true then [] else [c]
            | e :: t2 => c :: e :: t2) = c :: d :: t
      rw [hih]

theorem stripBy_eq_self (p : Char → Bool) (l : List Char)
    (h1 : headSat p l = true) (h2 : lastSat p l = true) : stripBy p l = l := by
  unfold stripBy
  rw [dropWhile_eq_self_of_headSat h1, rstripBy_eq_self_of_lastSat p l h2]

theorem stripBy_cons_not (p : Char → Bool) (c : Char) (l : List Char)
    (hc : p c = false) : ∃ t, stripBy p (c :: l) = c :: t := by
  unfold stripBy
  rw [List.dropWhile_cons, hc]
  simpa using rstripBy_cons_not p c l hc

theorem headSat_stripBy (p : Char → Bool) (l : List Char) :
    headSat p (stripBy p l) = true :=
  headSat_rstripBy p p (l.dropWhile p) (headSat_dropWhile p l)

theorem lastSat_stripBy (p : Char → Bool) (l : List Char) :
    lastSat p (stripBy p l) = true :=
  lastSat_rstripBy p (l.dropWhile p)

end JailReport

namespace JailReport

-- ---------------------------------------------------------------------------
-- normalize_ws produces NormP strings; NormP strings are fixed points
-- ---------------------------------------------------------------------------

theorem squash_allOk : ∀ (b : Bool) (s : List Char), allOk (squashAux b s) = true := by
  intro b s
  induction s generalizing b with
  | nil => rfl
  | cons c rest ih =>
    by_cases hc : isSpaceCh c
    · by_cases hb : b
      · simpa [squashAux, hc, hb] using ih true
      · simp only [squashAux, hc, if_true, hb, if_false, Bool.false_eq_true]
        simpa [allOk, okCh] using ih true
    · simp only [squashAux, hc, if_false, Bool.false_eq_true]
      simpa [allOk, okCh, hc] using ih false

theorem squash_headSat : ∀ s : List Char, headSat isSpaceCh (squashAux true s) = true := by
  intro s
  induction s with
  | nil => rfl
  | cons c rest ih =>
    by_cases hc : isSpaceCh c
    · simpa [squashAux, hc] using ih
    · simp [squashAux, hc, headSat]

theorem space_is_space : isSpaceCh ' ' = true := by decide

theorem not_space_ne_space {c : Char} (hc : isSpaceCh c = false) : decide (c = ' ') = false := by
  by_cases h : c = ' '
  · subst h; simp [space_is_space] at hc
  · simp [h]

theorem noDbl_cons_headSat {c : Char} {t : List Char} (h1 : noDbl t = true)
    (h2 : headSat isSpaceCh t = true ∨ isSpaceCh c = false) : noDbl (c :: t) = true := by
  match t with
  | [] => rfl
  | d :: t2 =>
    simp only [noDbl, Bool.and_eq_true]
    refine ⟨?_, h1⟩
    rcases h2 with h2 | h2
    · have hd : isSpaceCh d = false := by simpa [headSat] using h2
      simp [not_space_ne_space hd]
    · simp [not_space_ne_space h2]

theorem squash_noDbl : ∀ (s : List Char) (b : Bool), noDbl (squashAux b s) = true := by
  intro s
  induction s with
  | nil => intro b; rfl
  | cons c rest ih =>
    intro b
    by_cases hc : isSpaceCh c
    · by_cases hb : b
      · simpa [squashAux, hc, hb] using ih true
      · simp only [squashAux, hc, if_true, hb, Bool.false_eq_true, if_false]
        exact noDbl_cons_headSat (ih true) (Or.inl (squash_headSat rest))
    · simp only [squashAux, hc, Bool.false_eq_true, if_false]
      exact noDbl_cons_headSat (ih false) (Or.inr (by simpa using hc))

theorem NormP_stripBy_space {l : List Char} (hA : allOk l = true) (hD : noDbl l = true) :
    NormP (pyStrip l) = true := by
  have hocc := occursIn_stripBy isSpaceCh l
  simp only [NormP, Bool.and_eq_true, pyStrip]
  refine ⟨⟨⟨allOk_of_occursIn hocc hA, noDbl_of_occursIn hocc hD⟩, ?_⟩, ?_⟩
  · exact headSat_stripBy isSpaceCh l
  · exact lastSat_stripBy isSpaceCh l

theorem NormP_normalize (x : List Char) : NormP (normalize_ws x) = true :=
  NormP_stripBy_space (squash_allOk false x) (squash_noDbl x false)

theorem NormP_allOk {s : List Char} (h : NormP s = true) : allOk s = true := by
  simp only [NormP, Bool.and_eq_true] at h; exact h.1.1.1

theorem NormP_noDbl {s : List Char} (h : NormP s = true) : noDbl s = true := by
  simp only [NormP, Bool.and_eq_true] at h; exact h.1.1.2

theorem NormP_headSat {s : List Char} (h : NormP s = true) : headSat isSpaceCh s = true := by
  simp only [NormP, Bool.and_eq_true] at h; exact h.1.2

theorem NormP_lastSat {s : List Char} (h : NormP s = true) : lastSat isSpaceCh s = true := by
  simp only [NormP, Bool.and_eq_true] at h; exact h.2

theorem pyStrip_eq_self {s : List Char} (h : NormP s = true) : pyStrip s = s :=
  stripBy_eq_self isSpaceCh s (NormP_headSat h) (NormP_lastSat h)

theorem squash_eq_self_gen : ∀ (s : List Char) (b : Bool), allOk s = true → noDbl s = true →
    (b = false ∨ headSat isSpaceCh s = true) → squashAux b s = s := by
  intro s
  induction s with
  | nil => intro b _ _ _; rfl
  | cons c rest ih =>
    intro b hA hD hb
    have hAr : allOk rest = true := by
      simp only [allOk, List.all_cons, Bool.and_eq_true] at hA; exact hA.2
    have hDr : noDbl rest = true := noDbl_tail hD
    by_cases hc : isSpaceCh c
    · have hb2 : b = false := by
        rcases hb with hb | hb
        · exact hb
        · simp [headSat, hc] at hb
      have hcsp : c = ' ' := by
        simp only [allOk, List.all_cons, Bool.and_eq_true, okCh, Bool.or_eq_true] at hA
        rcases hA.1 with h | h
        · simp [hc] at h
        · simpa using h
      have hrest : headSat isSpaceCh rest = true := by
        match rest, hD with
        | [], _ => rfl
        | d :: t, hD =>
          simp only [noDbl, Bool.and_eq_true] at hD
          have hd : decide (d = ' ') = false := by
            have := hD.1
            subst hcsp
            simpa using this
          have hdz : d ≠ ' ' := by simpa using hd
          have : isSpaceCh d = false := by
            simp only [allOk, List.all_cons, Bool.and_eq_true, okCh, Bool.or_eq_true] at hA
            rcases hA.2.1 with h | h
            · simpa using h
            · exact absurd (by simpa using h) hdz
          simp [headSat, this]
      have : squashAux true rest = rest := ih true hAr hDr (Or.inr hrest)
      subst hcsp
      simp [squashAux, hb2, space_is_space, this]
    · have : squashAux false rest = rest := ih false hAr hDr (Or.inl rfl)
      simp [squashAux, hc, this]

theorem normalize_eq_self {s : List Char} (h : NormP s = true) : normalize_ws s = s := by
  unfold normalize_ws
  rw [squash_eq_self_gen s false (NormP_allOk h) (NormP_noDbl h) (Or.inl rfl)]
  exact pyStrip_eq_self h

end JailReport

namespace JailReport

-- ---------------------------------------------------------------------------
-- Engine lemmas: patterns beginning with `\s+` cannot match at a
-- non-whitespace position
-- ---------------------------------------------------------------------------

theorem reRun_chc_head (f : Nat) (p : Char → Bool) (s : List Char) (env : REnv)
    (k : List Char → REnv → Option REnv) (h : headSat p s = true) :
    reRun f (RE.chc p) s env k = none := by
  match f, s with
  | 0, _ => rfl
  | f + 1, [] => rfl
  | f + 1, c :: cs =>
    have hc : p c = false := by simpa [headSat] using h
    simp [reRun, hc]

theorem reRun_cat_wsPlus_none (f : Nat) (r2 : RE) (s : List Char) (env : REnv)
    (k : List Char → REnv → Option REnv) (h : headSat isSpaceCh s = true) :
    reRun f (RE.cat wsPlusRE r2) s env k = none := by
  match f with
  | 0 => rfl
  | 1 => rfl
  | f2 + 2 => exact reRun_chc_head f2 isSpaceCh s env _ h

theorem reFull_wsPlus_none (r2 : RE) (s : List Char) (h : headSat isSpaceCh s = true) :
    reFull (RE.cat wsPlusRE r2) s = none :=
  reRun_cat_wsPlus_none _ _ _ _ _ h

theorem rePrefixHit_wsPlus_none (r2 : RE) (s : List Char) (h : headSat isSpaceCh s = true) :
    rePrefixHit (RE.cat wsPlusRE r2) s = none :=
  reRun_cat_wsPlus_none _ _ _ _ _ h

-- ---------------------------------------------------------------------------
-- Leftmost-position lemmas
-- ---------------------------------------------------------------------------

theorem findFullFrom_ge (r : RE) : ∀ (s : List Char) (j i : Nat),
    findFullFrom r j s = some i → j ≤ i := by
  intro s
  induction s with
  | nil =>
    intro j i h
    simp only [findFullFrom] at h
    split at h
    · injection h with h2; omega
    · cases h
  | cons c rest ih =>
    intro j i h
    simp only [findFullFrom] at h
    split at h
    · injection h with h2; omega
    · have := ih (j + 1) i h; omega

theorem findPrefixFrom_ge (r : RE) : ∀ (s : List Char) (j i : Nat),
    findPrefixFrom r j s = some i → j ≤ i := by
  intro s
  induction s with
  | nil =>
    intro j i h
    simp only [findPrefixFrom] at h
    split at h
    · injection h with h2; omega
    · cases h
  | cons c rest ih =>
    intro j i h
    simp only [findPrefixFrom] at h
    split at h
    · injection h with h2; omega
    · have := ih (j + 1) i h; omega

theorem findFullFrom_lt_wsPlus (r2 : RE) : ∀ (s : List Char) (j i : Nat),
    findFullFrom (RE.cat wsPlusRE r2) j s = some i → i - j < s.length := by
  intro s
  induction s with
  | nil =>
    intro j i h
    simp only [findFullFrom, reFull_wsPlus_none r2 [] rfl, Option.isSome_none,
      Bool.false_eq_true, if_false] at h
    exact Option.noConfusion h
  | cons c rest ih =>
    intro j i h
    simp only [findFullFrom] at h
    split at h
    · injection h with h2; simp; omega
    · have h2 := ih (j + 1) i h
      have h3 := findFullFrom_ge _ rest (j + 1) i h
      simp only [List.length_cons]; omega

theorem findPrefixFrom_lt_wsPlus (r2 : RE) : ∀ (s : List Char) (j i : Nat),
    findPrefixFrom (RE.cat wsPlusRE r2) j s = some i → i - j < s.length := by
  intro s
  induction s with
  | nil =>
    intro j i h
    simp only [findPrefixFrom, rePrefixHit_wsPlus_none r2 [] rfl, Option.isSome_none,
      Bool.false_eq_true, if_false] at h
    exact Option.noConfusion h
  | cons c rest ih =>
    intro j i h
    simp only [findPrefixFrom] at h
    split at h
    · injection h with h2; simp; omega
    · have h2 := ih (j + 1) i h
      have h3 := findPrefixFrom_ge _ rest (j + 1) i h
      simp only [List.length_cons]; omega

-- ---------------------------------------------------------------------------
-- The substitutions keep a non-whitespace head and never grow the string
-- ---------------------------------------------------------------------------

theorem subEnd_cons_not_space (r2 : RE) (c : Char) (t : List Char)
    (hc : isSpaceCh c = false) :
    ∃ u, subEndAnchored (RE.cat wsPlusRE r2) (c :: t) = c :: u := by
  unfold subEndAnchored
  have hnone : reFull (RE.cat wsPlusRE r2) (c :: t) = none :=
    reFull_wsPlus_none r2 (c :: t) (by simpa [headSat] using hc)
  simp only [findFullFrom, hnone, Option.isSome_none, Bool.false_eq_true, if_false]
  match hfind : findFullFrom (RE.cat wsPlusRE r2) 1 t with
  | none => exact ⟨t, rfl⟩
  | some j =>
    have hge := findFullFrom_ge _ t 1 j hfind
    obtain ⟨j2, rfl⟩ : ∃ j2, j = j2 + 1 := ⟨j - 1, by omega⟩
    exact ⟨t.take j2, by simp⟩

theorem subLineEnd_cons_not_space (r2 : RE) (c : Char) (t : List Char)
    (hc : isSpaceCh c = false) :
    ∃ u, subToLineEnd (RE.cat wsPlusRE r2) (c :: t) = c :: u := by
  unfold subToLineEnd
  have hnone : rePrefixHit (RE.cat wsPlusRE r2) (c :: t) = none :=
    rePrefixHit_wsPlus_none r2 (c :: t) (by simpa [headSat] using hc)
  simp only [findPrefixFrom, hnone, Option.isSome_none, Bool.false_eq_true, if_false]
  match hfind : findPrefixFrom (RE.cat wsPlusRE r2) 1 t with
  | none => exact ⟨t, rfl⟩
  | some j =>
    have hge := findPrefixFrom_ge _ t 1 j hfind
    obtain ⟨j2, rfl⟩ : ∃ j2, j = j2 + 1 := ⟨j - 1, by omega⟩
    exact ⟨t.take j2, by simp⟩

theorem length_dropWhile_le1 (p : Char → Bool) (l : List Char) :
    (l.dropWhile p).length ≤ l.length := by
  induction l with
  | nil => simp
  | cons c rest ih =>
    by_cases hc : p c
    · simp only [List.dropWhile_cons, hc, if_true]
      calc (rest.dropWhile p).length ≤ rest.length := ih
        _ ≤ (c :: rest).length := by simp
    · simp [List.dropWhile_cons, hc]

theorem length_stripBy_le (p : Char → Bool) (l : List Char) :
    (stripBy p l).length ≤ l.length := by
  unfold stripBy
  obtain ⟨n, hn⟩ := rstripBy_eq_take p (l.dropWhile p)
  rw [hn]
  calc ((l.dropWhile p).take n).length ≤ (l.dropWhile p).length := by
        rw [List.length_take]; omega
    _ ≤ l.length := length_dropWhile_le1 p l

theorem length_pyStrip_le (l : List Char) : (pyStrip l).length ≤ l.length :=
  length_stripBy_le isSpaceCh l

theorem length_subEnd_le (r : RE) (s : List Char) :
    (subEndAnchored r s).length ≤ s.length := by
  unfold subEndAnchored
  match findFullFrom r 0 s with
  | none => exact Nat.le_refl _
  | some i => rw [List.length_take]; omega

theorem length_subLineEnd_le (r : RE) (s : List Char) :
    (subToLineEnd r s).length ≤ s.length := by
  unfold subToLineEnd
  match findPrefixFrom r 0 s with
  | none => exact Nat.le_refl _
  | some i => rw [List.length_take]; omega

theorem occursIn_subEnd (r : RE) (s : List Char) : occursIn (subEndAnchored r s) s := by
  unfold subEndAnchored
  match findFullFrom r 0 s with
  | none => exact occursIn_refl s
  | some i => exact occursIn_take s i

theorem occursIn_subLineEnd (r : RE) (s : List Char) : occursIn (subToLineEnd r s) s := by
  unfold subToLineEnd
  match findPrefixFrom r 0 s with
  | none => exact occursIn_refl s
  | some i => exact occursIn_take s i

end JailReport

namespace JailReport

-- ---------------------------------------------------------------------------
-- Junk-line lemmas
-- ---------------------------------------------------------------------------

theorem is_junk_nil : is_junk_line [] = true := by decide

theorem ne_nil_of_not_junk {ln : List Char} (h : is_junk_line ln = false) : ln ≠ [] := by
  intro he; subst he; exact absurd h (by decide)

theorem upperStr_ne_nil {m : List Char} (h : m ≠ []) : upperStr m ≠ [] := by
  simpa [upperStr] using h

theorem junk_mono {m l : List Char} (hml : occursIn m l) (hm : pyStrip m = m)
    (hl : pyStrip l = l) (hmne : m ≠ []) (hj : is_junk_line l = false) :
    is_junk_line m = false := by
  simp only [is_junk_line, hl] at hj
  rw [if_neg (upperStr_ne_nil (occursIn_ne_nil hml hmne))] at hj
  simp only [is_junk_line, hm]
  rw [if_neg (upperStr_ne_nil hmne)]
  by_contra hcon
  have hm2 : JUNK_SUBSTRINGS.any (fun j => containsSub (upperStr m) j) = true := by
    revert hcon
    cases JUNK_SUBSTRINGS.any (fun j => containsSub (upperStr m) j) <;> simp
  obtain ⟨j, hjmem, hcontains⟩ := List.any_eq_true.mp hm2
  have hbig : containsSub (upperStr l) j = true :=
    containsSub_mono (occursIn_map toUpperCh hml) hcontains
  have : JUNK_SUBSTRINGS.any (fun j => containsSub (upperStr l) j) = true :=
    List.any_eq_true.mpr ⟨j, hjmem, hbig⟩
  rw [this] at hj
  exact Bool.noConfusion hj

-- ---------------------------------------------------------------------------
-- Structure of clean_charge_line
-- ---------------------------------------------------------------------------

theorem clean_nil : clean_charge_line [] = [] := by decide

theorem clean_of_junk {x : List Char} (hj : is_junk_line (normalize_ws x) = true) :
    clean_charge_line x = [] := by
  by_cases hx : x = []
  · subst hx; exact clean_nil
  · simp [clean_charge_line, hx, hj]

theorem clean_unfold {x : List Char} (hx : x ≠ [])
    (hj : is_junk_line (normalize_ws x) = false) :
    clean_charge_line x =
      pyStrip (subEndAnchored TX_ZIP_TAIL_RE
        (pyStrip (subEndAnchored TRAILING_CITY_TX_ZIP_RE
          (pyStrip (subToLineEnd INLINE_STREET_ADDR_RE (normalize_ws x)))))) := by
  simp [clean_charge_line, hx, hj]

theorem NormP_step_subEnd {u : List Char} (r : RE) (h : NormP u = true) :
    NormP (pyStrip (subEndAnchored r u)) = true := by
  have o := occursIn_subEnd r u
  exact NormP_stripBy_space (allOk_of_occursIn o (NormP_allOk h))
    (noDbl_of_occursIn o (NormP_noDbl h))

theorem NormP_step_subLine {u : List Char} (r : RE) (h : NormP u = true) :
    NormP (pyStrip (subToLineEnd r u)) = true := by
  have o := occursIn_subLineEnd r u
  exact NormP_stripBy_space (allOk_of_occursIn o (NormP_allOk h))
    (noDbl_of_occursIn o (NormP_noDbl h))

theorem occursIn_step_subEnd (r : RE) (u : List Char) :
    occursIn (pyStrip (subEndAnchored r u)) u :=
  occursIn_trans (occursIn_stripBy isSpaceCh (subEndAnchored r u)) (occursIn_subEnd r u)

theorem occursIn_step_subLine (r : RE) (u : List Char) :
    occursIn (pyStrip (subToLineEnd r u)) u :=
  occursIn_trans (occursIn_stripBy isSpaceCh (subToLineEnd r u)) (occursIn_subLineEnd r u)

theorem clean_normP (x : List Char) : NormP (clean_charge_line x) = true := by
  by_cases hx : x = []
  · subst hx; rw [clean_nil]; decide
  by_cases hj : is_junk_line (normalize_ws x) = true
  · rw [clean_of_junk hj]; decide
  have hj2 : is_junk_line (normalize_ws x) = false := by simpa using hj
  rw [clean_unfold hx hj2]
  exact NormP_step_subEnd _ (NormP_step_subEnd _ (NormP_step_subLine _ (NormP_normalize x)))

theorem clean_occursIn (x : List Char) :
    occursIn (clean_charge_line x) (normalize_ws x) := by
  by_cases hx : x = []
  · subst hx; rw [clean_nil]; exact occursIn_nil _
  by_cases hj : is_junk_line (normalize_ws x) = true
  · rw [clean_of_junk hj]; exact occursIn_nil _
  have hj2 : is_junk_line (normalize_ws x) = false := by simpa using hj
  rw [clean_unfold hx hj2]
  exact occursIn_trans (occursIn_step_subEnd _ _)
    (occursIn_trans (occursIn_step_subEnd _ _) (occursIn_step_subLine _ _))

theorem clean_not_junk {x : List Char} (hne : clean_charge_line x ≠ []) :
    is_junk_line (clean_charge_line x) = false := by
  by_cases hx : x = []
  · exact absurd (hx ▸ clean_nil) hne
  by_cases hj : is_junk_line (normalize_ws x) = true
  · exact absurd (clean_of_junk hj) hne
  have hj2 : is_junk_line (normalize_ws x) = false := by simpa using hj
  exact junk_mono (clean_occursIn x) (pyStrip_eq_self (clean_normP x))
    (pyStrip_eq_self (NormP_normalize x)) hne hj2

end JailReport

namespace JailReport

-- ---------------------------------------------------------------------------
-- Claim C6: idempotence of cleaning
-- ---------------------------------------------------------------------------

/-- C6 counterexample: the charge-text cleaner is not idempotent.  On
"AB TX 11111 TX 22222" one pass strips only the last trailing state/zip
fragment, leaving "AB TX 11111"; a second pass strips again to "AB". -/
theorem c6_counterexample : ¬ ClaimC6 := by
  intro h
  exact absurd (h (("AB TX 11111 TX 22222").toList)) (by decide)

/-- C6 amended: the cleaner is idempotent on every string whose cleaned
form is matched by none of the three address-stripping patterns (the
inline street-address pattern, the trailing city/TX/zip pattern and the
trailing TX/zip pattern); in general re-cleaning can strip further when
removing one trailing state/zip fragment exposes another. -/
theorem c6_amended (x : List Char)
    (h1 : findPrefixFrom INLINE_STREET_ADDR_RE 0 (clean_charge_line x) = none)
    (h2 : findFullFrom TRAILING_CITY_TX_ZIP_RE 0 (clean_charge_line x) = none)
    (h3 : findFullFrom TX_ZIP_TAIL_RE 0 (clean_charge_line x) = none) :
    clean_charge_line (clean_charge_line x) = clean_charge_line x := by
  by_cases hy : clean_charge_line x = []
  · rw [hy]; exact clean_nil
  have hN : NormP (clean_charge_line x) = true := clean_normP x
  have hjy : is_junk_line (clean_charge_line x) = false := clean_not_junk hy
  have hnorm : normalize_ws (clean_charge_line x) = clean_charge_line x := normalize_eq_self hN
  have hjy2 : is_junk_line (normalize_ws (clean_charge_line x)) = false := by
    rw [hnorm]; exact hjy
  rw [clean_unfold hy hjy2, hnorm]
  rw [show subToLineEnd INLINE_STREET_ADDR_RE (clean_charge_line x) = clean_charge_line x by
    unfold subToLineEnd; rw [h1]]
  rw [pyStrip_eq_self hN]
  rw [show subEndAnchored TRAILING_CITY_TX_ZIP_RE (clean_charge_line x) = clean_charge_line x by
    unfold subEndAnchored; rw [h2]]
  rw [pyStrip_eq_self hN]
  rw [show subEndAnchored TX_ZIP_TAIL_RE (clean_charge_line x) = clean_charge_line x by
    unfold subEndAnchored; rw [h3]]
  exact pyStrip_eq_self hN

/-- C6 witness: the amended idempotence applied at a concrete cleaned
charge string. -/
theorem c6_amended_witness :
    clean_charge_line (clean_charge_line (("THEFT OF PROPERTY").toList))
      = clean_charge_line (("THEFT OF PROPERTY").toList) :=
  c6_amended (("THEFT OF PROPERTY").toList) (by decide) (by decide) (by decide)

-- ---------------------------------------------------------------------------
-- Claim C3: no address leakage
-- ---------------------------------------------------------------------------

/-- C3 counterexample: the assembler produces a record whose charge
description contains a city/state/zip pattern; on the c3Lines input the
charge "FRAUD TX 76102 CASE" keeps its interior state/zip fragment because
the cleaner only strips such fragments at the end of the text. -/
theorem c3_counterexample : ¬ ClaimC3 := by
  intro h
  have := h c3Lines (recAt (parseLines c3Lines) 0) (by decide)
  exact absurd this (by decide)

/-- C3 amended: the cleaner always strips text when the trailing TX/zip
pattern matches its normalized non-junk input — the cleaned result is
strictly shorter than the normalized input — but state/zip fragments in
interior positions can survive into charge strings. -/
theorem c3_amended (x : List Char)
    (hj : is_junk_line (normalize_ws x) = false)
    (ht : txZipTailFound (normalize_ws x) = true) :
    (clean_charge_line x).length < (normalize_ws x).length := by
  have hx : x ≠ [] := by
    intro he; subst he; exact absurd ht (by decide)
  rw [clean_unfold hx hj]
  have hN0 := NormP_normalize x
  have step3le : ∀ u : List Char,
      (pyStrip (subEndAnchored TX_ZIP_TAIL_RE u)).length ≤ u.length := fun u =>
    Nat.le_trans (length_stripBy_le _ _) (length_subEnd_le _ u)
  have step2le : ∀ u : List Char,
      (pyStrip (subEndAnchored TRAILING_CITY_TX_ZIP_RE u)).length ≤ u.length := fun u =>
    Nat.le_trans (length_stripBy_le _ _) (length_subEnd_le _ u)
  match hfind1 : findPrefixFrom INLINE_STREET_ADDR_RE 0 (normalize_ws x) with
  | some i =>
    have hsub1 : subToLineEnd INLINE_STREET_ADDR_RE (normalize_ws x)
        = (normalize_ws x).take i := by
      unfold subToLineEnd; rw [hfind1]
    have hfind1b := hfind1
    unfold INLINE_STREET_ADDR_RE at hfind1b
    have hlt := findPrefixFrom_lt_wsPlus _ (normalize_ws x) 0 i hfind1b
    rw [hsub1]
    have h1 : (pyStrip ((normalize_ws x).take i)).length ≤ i := by
      have ha := length_pyStrip_le ((normalize_ws x).take i)
      have h2 : ((normalize_ws x).take i).length ≤ i := by
        rw [List.length_take]; omega
      omega
    have hb := step2le (pyStrip ((normalize_ws x).take i))
    have hcc := step3le
      (pyStrip (subEndAnchored TRAILING_CITY_TX_ZIP_RE (pyStrip ((normalize_ws x).take i))))
    omega
  | none =>
    have hsub1 : subToLineEnd INLINE_STREET_ADDR_RE (normalize_ws x) = normalize_ws x := by
      unfold subToLineEnd; rw [hfind1]
    rw [hsub1, pyStrip_eq_self hN0]
    match hfind2 : findFullFrom TRAILING_CITY_TX_ZIP_RE 0 (normalize_ws x) with
    | some i =>
      have hsub2 : subEndAnchored TRAILING_CITY_TX_ZIP_RE (normalize_ws x)
          = (normalize_ws x).take i := by
        unfold subEndAnchored; rw [hfind2]
      have hfind2b := hfind2
      unfold TRAILING_CITY_TX_ZIP_RE at hfind2b
      have hlt := findFullFrom_lt_wsPlus _ (normalize_ws x) 0 i hfind2b
      rw [hsub2]
      have h1 : (pyStrip ((normalize_ws x).take i)).length ≤ i := by
        have ha := length_pyStrip_le ((normalize_ws x).take i)
        have h2 : ((normalize_ws x).take i).length ≤ i := by rw [List.length_take]; omega
        omega
      have hb := step3le (pyStrip ((normalize_ws x).take i))
      omega
    | none =>
      have hsub2 : subEndAnchored TRAILING_CITY_TX_ZIP_RE (normalize_ws x) = normalize_ws x := by
        unfold subEndAnchored; rw [hfind2]
      rw [hsub2, pyStrip_eq_self hN0]
      obtain ⟨i, hfind3⟩ : ∃ i, findFullFrom TX_ZIP_TAIL_RE 0 (normalize_ws x) = some i := by
        unfold txZipTailFound at ht
        cases hv : findFullFrom TX_ZIP_TAIL_RE 0 (normalize_ws x) with
        | none => rw [hv] at ht; exact absurd ht (by decide)
        | some i => exact ⟨i, rfl⟩
      have hsub3 : subEndAnchored TX_ZIP_TAIL_RE (normalize_ws x)
          = (normalize_ws x).take i := by
        unfold subEndAnchored; rw [hfind3]
      have hfind3b := hfind3
      unfold TX_ZIP_TAIL_RE at hfind3b
      have hlt := findFullFrom_lt_wsPlus _ (normalize_ws x) 0 i hfind3b
      rw [hsub3]
      have ha := length_pyStrip_le ((normalize_ws x).take i)
      have h2 : ((normalize_ws x).take i).length ≤ i := by rw [List.length_take]; omega
      omega

/-- C3 witness: the amended single-pass stripping guarantee applied at a
concrete fragment with a trailing TX/zip tail. -/
theorem c3_amended_witness :
    (clean_charge_line (("THEFT A TX 76102").toList)).length
      < (normalize_ws (("THEFT A TX 76102").toList)).length :=
  c3_amended (("THEFT A TX 76102").toList) (by decide) (by decide)

end JailReport

namespace JailReport

-- ---------------------------------------------------------------------------
-- Deduplication lemmas
-- ---------------------------------------------------------------------------

theorem isEmpty_iff_nil (l : List Char) : l.isEmpty = true ↔ l = [] := by
  cases l <;> simp

theorem dedup_eq_keepFirst : ∀ (l seen : List (List Char)),
    dedupCharges seen l
      = keepFirst seen ((l.map clean_charge_line).filter (fun c => !c.isEmpty)) := by
  intro l
  induction l with
  | nil => intro seen; rfl
  | cons c rest ih =>
    intro seen
    by_cases hc : clean_charge_line c = []
    · simp [dedupCharges, hc, ih seen, keepFirst]
    · have he : (clean_charge_line c).isEmpty = false :=
        Bool.eq_false_iff.mpr (fun h => hc ((isEmpty_iff_nil _).mp h))
      by_cases hel : elemL (clean_charge_line c) seen = true
      · simp [dedupCharges, he, hel, keepFirst, ih seen]
      · have helb : elemL (clean_charge_line c) seen = false := by simpa using hel
        simp [dedupCharges, he, helb, keepFirst, ih]

theorem keepFirst_count_zero : ∀ (l seen : List (List Char)) (x : List Char),
    elemL x seen = true → countL x (keepFirst seen l) = 0 := by
  intro l
  induction l with
  | nil => intro seen x _; rfl
  | cons y rest ih =>
    intro seen x h
    by_cases hy : elemL y seen = true
    · simp only [keepFirst, hy, if_true]
      exact ih seen x h
    · have hyb : elemL y seen = false := by simpa using hy
      have hxy : y ≠ x := by
        intro he; subst he; rw [h] at hyb; exact Bool.noConfusion hyb
      simp only [keepFirst, hyb, Bool.false_eq_true, if_false, countL, hxy]
      have hx2 : elemL x (y :: seen) = true := by simp [elemL, hxy, h]
      rw [ih (y :: seen) x hx2]

theorem keepFirst_count_one : ∀ (l seen : List (List Char)) (x : List Char),
    x ∈ l → elemL x seen = false → countL x (keepFirst seen l) = 1 := by
  intro l
  induction l with
  | nil => intro seen x h _; simp at h
  | cons y rest ih =>
    intro seen x hmem hseen
    by_cases hy : elemL y seen = true
    · have hxy : x ≠ y := by
        intro he; subst he; rw [hseen] at hy; exact Bool.noConfusion hy
      have hx2 : x ∈ rest := by
        rcases List.mem_cons.mp hmem with he | hx2
        · exact absurd he hxy
        · exact hx2
      simp only [keepFirst, hy, if_true]
      exact ih seen x hx2 hseen
    · have hyb : elemL y seen = false := by simpa using hy
      by_cases hxy : y = x
      · subst hxy
        simp only [keepFirst, hyb, Bool.false_eq_true, if_false, countL, if_pos rfl]
        have hz := keepFirst_count_zero rest (y :: seen) y (by simp [elemL])
        rw [hz]
        simp
      · have hx2 : x ∈ rest := by
          rcases List.mem_cons.mp hmem with he | hx2
          · exact absurd he.symm hxy
          · exact hx2
        simp only [keepFirst, hyb, Bool.false_eq_true, if_false, countL, hxy]
        have hx3 : elemL x (y :: seen) = false := by simp [elemL, hxy, hseen]
        rw [ih (y :: seen) x hx2 hx3]

-- ---------------------------------------------------------------------------
-- Claim C2: deduplication of charges
-- ---------------------------------------------------------------------------

/-- C2 counterexample: the dedup in finalize_record is case-sensitive, not
case-insensitive — two cleaned charges that differ only in letter case both
survive finalization. -/
theorem c2_counterexample : ¬ ClaimC2 := by
  intro h
  have := h [("THEFT OF X").toList, ("Theft Of X").toList]
      (("THEFT OF X").toList) (("Theft Of X").toList) (by decide) (by decide) (by decide)
  exact absurd this (by decide)

/-- C2 amended: finalization produces exactly the cleaned non-empty charge
strings with duplicates removed by case-sensitive exact match against
already-added entries, each surviving entry kept once at the position of
its first occurrence. -/
theorem c2_amended (frags : List (List Char)) :
    finalize_charges frags
      = keepFirst [] ((frags.map clean_charge_line).filter (fun c => !c.isEmpty)) ∧
    ∀ s, s ∈ (frags.map clean_charge_line).filter (fun c => !c.isEmpty) →
      countL s (finalize_charges frags) = 1 := by
  constructor
  · exact dedup_eq_keepFirst frags []
  · intro s hs
    show countL s (dedupCharges [] frags) = 1
    rw [dedup_eq_keepFirst frags []]
    exact keepFirst_count_one _ [] s hs rfl

/-- C2 witness: the amended deduplication applied at a concrete fragment
list with an exact duplicate. -/
theorem c2_amended_witness :
    countL (("THEFT OF PROPERTY").toList)
      (finalize_charges [("THEFT OF PROPERTY").toList, ("THEFT OF PROPERTY").toList]) = 1 :=
  (c2_amended [("THEFT OF PROPERTY").toList, ("THEFT OF PROPERTY").toList]).2
    (("THEFT OF PROPERTY").toList) (by decide)

end JailReport

namespace JailReport

-- ---------------------------------------------------------------------------
-- Chunk lemmas for the anchor-count property
-- ---------------------------------------------------------------------------

theorem chunksOf_length (s : List Char) : ∀ spans : List (Nat × Nat),
    (chunksOf s spans).length = spans.length := by
  intro spans
  induction spans with
  | nil => rfl
  | cons sp rest ih =>
    obtain ⟨a, e⟩ := sp
    simp [chunksOf, ih]

theorem chunksOf_mem {s chunk : List Char} : ∀ {spans : List (Nat × Nat)},
    chunk ∈ chunksOf s spans → ∃ e p, chunk = stripSep (sliceStr s e p) := by
  intro spans
  induction spans with
  | nil => intro h; simp [chunksOf] at h
  | cons sp rest ih =>
    obtain ⟨a, e⟩ := sp
    intro h
    simp only [chunksOf] at h
    rcases List.mem_cons.mp h with he | hmem
    · exact ⟨e, _, he⟩
    · exact ih hmem

theorem headSat_space_of_sep {l : List Char} (hA : allOk l = true)
    (h : headSat isSepCh l = true) : headSat isSpaceCh l = true := by
  match l with
  | [] => rfl
  | c :: t =>
    have hsep : isSepCh c = false := by simpa [headSat] using h
    have hok : okCh c = true := by
      simp only [allOk, List.all_cons, Bool.and_eq_true] at hA; exact hA.1
    simp only [headSat]
    cases hsp : isSpaceCh c
    · rfl
    · simp only [okCh, hsp, Bool.not_true, Bool.false_or] at hok
      have hcc : c = ' ' := by simpa using hok
      subst hcc
      exact absurd hsep (by decide)

theorem lastSat_space_of_sep {l : List Char} (hA : allOk l = true)
    (h : lastSat isSepCh l = true) : lastSat isSpaceCh l = true := by
  induction l with
  | nil => rfl
  | cons c t ih =>
    match t, h with
    | [], h =>
      have hsep : isSepCh c = false := by simpa [lastSat] using h
      have hok : okCh c = true := by
        simp only [allOk, List.all_cons, Bool.and_eq_true] at hA; exact hA.1
      simp only [lastSat]
      cases hsp : isSpaceCh c
      · rfl
      · simp only [okCh, hsp, Bool.not_true, Bool.false_or] at hok
        have hcc : c = ' ' := by simpa using hok
        subst hcc
        exact absurd hsep (by decide)
    | d :: t2, h =>
      have hA2 : allOk (d :: t2) = true := by
        simp only [allOk, List.all_cons, Bool.and_eq_true] at hA ⊢
        exact hA.2
      show lastSat isSpaceCh (d :: t2) = true
      exact ih hA2 h

theorem stripSep_slice_normP {s : List Char} (hA : allOk s = true) (hD : noDbl s = true)
    (e p : Nat) :
    NormP (stripSep (sliceStr s e p)) = true ∧ occursIn (stripSep (sliceStr s e p)) s := by
  have ho : occursIn (stripSep (sliceStr s e p)) s :=
    occursIn_trans (occursIn_stripBy isSepCh _) (occursIn_sliceStr s e p)
  refine ⟨?_, ho⟩
  have hA2 := allOk_of_occursIn ho hA
  have hD2 := noDbl_of_occursIn ho hD
  simp only [NormP, Bool.and_eq_true]
  refine ⟨⟨⟨hA2, hD2⟩, ?_⟩, ?_⟩
  · exact headSat_space_of_sep hA2 (headSat_stripBy isSepCh _)
  · exact lastSat_space_of_sep hA2 (lastSat_stripBy isSepCh _)

theorem pyStrip_cons_not_space {c : Char} (t : List Char) (hc : isSpaceCh c = false) :
    ∃ u, pyStrip (c :: t) = c :: u :=
  stripBy_cons_not isSpaceCh c t hc

theorem subLineEnd_inline_cons (c : Char) (t : List Char) (hc : isSpaceCh c = false) :
    ∃ u, subToLineEnd INLINE_STREET_ADDR_RE (c :: t) = c :: u :=
  subLineEnd_cons_not_space _ c t hc

theorem subEnd_trailing_cons (c : Char) (t : List Char) (hc : isSpaceCh c = false) :
    ∃ u, subEndAnchored TRAILING_CITY_TX_ZIP_RE (c :: t) = c :: u :=
  subEnd_cons_not_space _ c t hc

theorem subEnd_txzip_cons (c : Char) (t : List Char) (hc : isSpaceCh c = false) :
    ∃ u, subEndAnchored TX_ZIP_TAIL_RE (c :: t) = c :: u :=
  subEnd_cons_not_space _ c t hc

theorem clean_chunk_ne_nil {sLine chunk : List Char} (hN : NormP chunk = true)
    (hjL : is_junk_line sLine = false) (hsL : pyStrip sLine = sLine)
    (hocc : occursIn chunk sLine) (hne : chunk ≠ []) :
    clean_charge_line chunk ≠ [] := by
  have hjc : is_junk_line chunk = false :=
    junk_mono hocc (pyStrip_eq_self hN) hsL hne hjL
  have hnorm : normalize_ws chunk = chunk := normalize_eq_self hN
  have hjn : is_junk_line (normalize_ws chunk) = false := by rw [hnorm]; exact hjc
  obtain ⟨c, t, rfl⟩ : ∃ c t, chunk = c :: t := by
    match chunk, hne with
    | c :: t, _ => exact ⟨c, t, rfl⟩
  have hc : isSpaceCh c = false := by
    have := NormP_headSat hN
    simpa [headSat] using this
  rw [clean_unfold hne hjn, hnorm]
  obtain ⟨u1, hu1⟩ := subLineEnd_inline_cons c t hc
  rw [hu1]
  obtain ⟨u2, hu2⟩ := pyStrip_cons_not_space u1 hc
  rw [hu2]
  obtain ⟨u3, hu3⟩ := subEnd_trailing_cons c u2 hc
  rw [hu3]
  obtain ⟨u4, hu4⟩ := pyStrip_cons_not_space u3 hc
  rw [hu4]
  obtain ⟨u5, hu5⟩ := subEnd_txzip_cons c u4 hc
  rw [hu5]
  obtain ⟨u6, hu6⟩ := pyStrip_cons_not_space u5 hc
  rw [hu6]
  simp

theorem filter_map_clean_length : ∀ (M : List (List Char)),
    (∀ c ∈ M, c ≠ [] → clean_charge_line c ≠ []) →
    ((M.map clean_charge_line).filter (fun c => !c.isEmpty)).length
      = (M.filter (fun c => !c.isEmpty)).length := by
  intro M
  induction M with
  | nil => intro _; rfl
  | cons c rest ih =>
    intro h
    have hrest := ih (fun d hd => h d (List.mem_cons_of_mem c hd))
    by_cases hc : c = []
    · subst hc
      simp [clean_nil, hrest]
    · have h2 : clean_charge_line c ≠ [] := h c (List.mem_cons_self c rest) hc
      have he1 : (clean_charge_line c).isEmpty = false :=
        Bool.eq_false_iff.mpr (fun hx => h2 ((isEmpty_iff_nil _).mp hx))
      have he2 : c.isEmpty = false :=
        Bool.eq_false_iff.mpr (fun hx => hc ((isEmpty_iff_nil _).mp hx))
      simp [List.filter_cons, he1, he2, hrest]

-- ---------------------------------------------------------------------------
-- Claim C4: anchor count invariant
-- ---------------------------------------------------------------------------

/-- C4 counterexample: a content line with two booking anchors that are not
immediately adjacent (the span between them is " - ") appends only one
charge fragment, because the span consists solely of separator characters
and is stripped to nothing. -/
theorem c4_counterexample : ¬ ClaimC4 := by
  intro h
  have := h [] [] c4Line (by decide) (by decide) (by decide)
  exact absurd this (by decide)

/-- C4 amended: on a non-junk content line with at least one booking
anchor, the content router appends exactly one charge fragment per anchor
whose following span still contains a character after stripping the
separator characters (space, hyphen, tab); spans consisting solely of
separator characters — not only empty spans between immediately-adjacent
anchors — contribute nothing.  There is one span per anchor. -/
theorem c4_amended (A C : List (List Char)) (ln : List Char)
    (hj : is_junk_line (normalize_ws ln) = false)
    (hb : bookingSpans (normalize_ws ln) ≠ []) :
    ((contentUpdate A C ln).2).length
      = C.length + ((chunksOf (normalize_ws ln) (bookingSpans (normalize_ws ln))).filter
          (fun c => !c.isEmpty)).length ∧
    (chunksOf (normalize_ws ln) (bookingSpans (normalize_ws ln))).length
      = (bookingSpans (normalize_ws ln)).length := by
  refine ⟨?_, chunksOf_length _ _⟩
  have hs : normalize_ws ln ≠ [] := ne_nil_of_not_junk hj
  obtain ⟨sp0, restSpans, hspans⟩ := List.exists_cons_of_ne_nil hb
  obtain ⟨b0, e0⟩ := sp0
  have h2 : (contentUpdate A C ln).2
      = C ++ ((chunksOf (normalize_ws ln) ((b0, e0) :: restSpans)).map clean_charge_line).filter
          (fun c => !c.isEmpty) := by
    simp [contentUpdate, hs, hj, hspans]
  rw [h2, hspans, List.length_append]
  congr 1
  apply filter_map_clean_length
  intro chunk hmem hne2
  obtain ⟨e, p, hchunk⟩ := chunksOf_mem hmem
  have hfacts := stripSep_slice_normP (NormP_allOk (NormP_normalize ln))
    (NormP_noDbl (NormP_normalize ln)) e p
  rw [← hchunk] at hfacts
  exact clean_chunk_ne_nil hfacts.1 hj (pyStrip_eq_self (NormP_normalize ln)) hfacts.2 hne2

/-- C4 witness: the amended anchor-count equation applied at a concrete
two-anchor content line with one separator-only span. -/
theorem c4_amended_witness :
    ((contentUpdate [] [] c4Line).2).length
      = ([] : List (List Char)).length
        + ((chunksOf (normalize_ws c4Line) (bookingSpans (normalize_ws c4Line))).filter
            (fun c => !c.isEmpty)).length :=
  (c4_amended [] [] c4Line (by decide) (by decide)).1

end JailReport

namespace JailReport

-- ---------------------------------------------------------------------------
-- State-machine helper lemmas
-- ---------------------------------------------------------------------------

theorem applyCurrent_pending (st : PState) (ln : List Char) :
    (applyCurrent st ln).pending = st.pending := by
  cases hcur : st.current <;> simp [applyCurrent, hcur]

-- ---------------------------------------------------------------------------
-- Claim C7: the identifier on finalized records
-- ---------------------------------------------------------------------------

/-- C7 counterexample: a finalized record does not carry the identifier the
header supplied — finalize_record drops the cid field, and none of the four
emitted fields contains it. -/
theorem c7_counterexample : ¬ ClaimC7 := by
  intro h
  exact absurd
    (h ⟨("SMITH, JOHN  ").toList, ("1234567").toList, ("1/2/2026").toList, [], []⟩
      (by decide))
    (by decide)

/-- C7 amended: when a full header line matches, the assembler stores the
captured identifier in the working record, but finalization discards it —
the emitted record is independent of the working record's cid field. -/
theorem c7_amended :
    (∀ (st : PState) (ln nm cid dt : List Char),
        is_junk_line ln = false → matchNameCidDate ln = some (nm, cid, dt) →
        (processLine st ln).current = some ⟨nm, cid, dt, [], []⟩) ∧
    (∀ (rec : Rec0) (cid1 cid2 : List Char),
        finalize_record { rec with cid := cid1 } = finalize_record { rec with cid := cid2 }) := by
  constructor
  · intro st ln nm cid dt hj hm
    simp [processLine, hj, hm]
  · intro rec c1 c2
    rfl

/-- C7 witness: the amended capture property at the concrete header line
of the example scenario. -/
theorem c7_amended_witness :
    (processLine initState (("SMITH, JOHN   1234567   1/2/2026").toList)).current
      = some ⟨("SMITH, JOHN  ").toList, ("1234567").toList, ("1/2/2026").toList, [], []⟩ :=
  c7_amended.1 initState (("SMITH, JOHN   1234567   1/2/2026").toList)
    (("SMITH, JOHN  ").toList) (("1234567").toList) (("1/2/2026").toList)
    (by decide) (by decide)

-- ---------------------------------------------------------------------------
-- Claim C8: stale pending identities are discarded
-- ---------------------------------------------------------------------------

/-- C8 confirmed: after the assembler processes any non-junk line that is
not an identifier+date-only match and not a name-only match while a pending
identity is held with no open record, no pending identity remains; the
invariant hypothesis (a pending identity implies no open record) holds in
every reachable assembler state. -/
theorem c8_theorem (st : PState) (ln : List Char)
    (hinv : st.pending.isSome = true → st.current = none)
    (hj : is_junk_line ln = false)
    (hB : matchCidDate ln = none)
    (hno : ¬ (st.pending.isSome = true ∧ st.current = none ∧ matchNameOnly ln = true)) :
    (processLine st ln).pending = none := by
  have hln : ln ≠ [] := ne_nil_of_not_junk hj
  have hlnE : ln.isEmpty = false :=
    Bool.eq_false_iff.mpr (fun hx => hln ((isEmpty_iff_nil _).mp hx))
  cases hA : matchNameCidDate ln with
  | some v => simp [processLine, hj, hA]
  | none =>
    cases hp : st.pending with
    | none => simp [processLine, hj, hA, hB, hp, applyCurrent_pending]
    | some pr =>
      obtain ⟨cid, dt⟩ := pr
      have hcur : st.current = none := hinv (by rw [hp]; rfl)
      cases hn : matchNameOnly ln with
      | true => exact absurd ⟨by rw [hp]; rfl, hcur, hn⟩ hno
      | false =>
        simp [processLine, hj, hA, hB, hp, hn, applyCurrent_pending, hcur, hlnE]

/-- C8 witness: a pending identity held before a plain content line is
discarded. -/
theorem c8_theorem_witness :
    (processLine ⟨[], some ((("1234567").toList), (("1/2/2026").toList)), none⟩
      (("THEFT OF PROPERTY").toList)).pending = none :=
  c8_theorem ⟨[], some ((("1234567").toList), (("1/2/2026").toList)), none⟩
    (("THEFT OF PROPERTY").toList) (fun _ => rfl) (by decide) (by decide) (by decide)

-- ---------------------------------------------------------------------------
-- Claim C10: junk classification by substring containment
-- ---------------------------------------------------------------------------

/-- C10 confirmed: any line whose uppercased trimmed text contains "CID"
anywhere — including inside ordinary words — is classified as junk, and the
assembler drops it without touching its state. -/
theorem c10_theorem (st : PState) (ln : List Char)
    (h : containsSub (upperStr (pyStrip ln)) (("CID").toList) = true) :
    is_junk_line ln = true ∧ processLine st ln = st := by
  have hup : upperStr (pyStrip ln) ≠ [] := by
    intro hx
    rw [hx] at h
    exact absurd h (by decide)
  have hj : is_junk_line ln = true := by
    simp only [is_junk_line]
    rw [if_neg hup]
    exact List.any_eq_true.mpr ⟨("CID").toList, by decide, h⟩
  refine ⟨hj, ?_⟩
  simp [processLine, hj]

/-- C10 witness: the word HOMICIDE contains "CID", so the line is junk and
ignored by the assembler. -/
theorem c10_theorem_witness :
    is_junk_line (("HOMICIDE").toList) = true ∧
    processLine initState (("HOMICIDE").toList) = initState :=
  c10_theorem initState (("HOMICIDE").toList) (by decide)

-- ---------------------------------------------------------------------------
-- Claim C9: report-date extraction fallback
-- ---------------------------------------------------------------------------

/-- C9 counterexample: on a first page containing "99/99/2026" the date
pattern is found, yet the current-date fallback is still used because
strptime rejects the match — so the fallback does not occur exactly when no
pattern is found. -/
theorem c9_counterexample : ¬ ClaimC9 := by
  intro h
  have := (h (("BOOKED IN 99/99/2026").toList)).mp (by decide)
  exact absurd this (by decide)

/-- C9 amended: the report date equals the first date-shaped match on the
first page whenever that match is a valid calendar date, and the
current-date fallback is used exactly when no date pattern is found or the
first match is rejected by strptime — in both cases silently, never as an
error. -/
theorem c9_amended (page : List Char) :
    (extract_report_date page = none ↔
      (firstDateMatch page = none ∨
        ∃ m d y, firstDateMatch page = some (m, d, y) ∧ validDate m d y = false)) ∧
    (∀ m d y, firstDateMatch page = some (m, d, y) → validDate m d y = true →
      extract_report_date page = some (m, d, y)) := by
  constructor
  · unfold extract_report_date
    match hf : firstDateMatch page with
    | none => simp
    | some (m, d, y) =>
      by_cases hv : validDate m d y = true
      · show (if validDate m d y = true then some (m, d, y) else none) = none ↔ _
        rw [if_pos hv]
        constructor
        · intro hcon; exact absurd hcon (by simp)
        · rintro (hcon | ⟨m2, d2, y2, heq, hval⟩)
          · exact absurd hcon (by simp)
          · have h1 : m = m2 ∧ d = d2 ∧ y = y2 := by
              injection heq with h2
              exact ⟨congrArg Prod.fst h2, congrArg (fun t => t.2.1) h2,
                congrArg (fun t => t.2.2) h2⟩
            obtain ⟨rfl, rfl, rfl⟩ := h1
            rw [hv] at hval
            exact Bool.noConfusion hval
      · have hvf : validDate m d y = false := by simpa using hv
        show (if validDate m d y = true then some (m, d, y) else none) = none ↔ _
        rw [if_neg (by simp [hvf])]
        constructor
        · intro _; exact Or.inr ⟨m, d, y, rfl, hvf⟩
        · intro _; rfl
  · intro m d y hm hv
    unfold extract_report_date
    rw [hm]
    show (if validDate m d y = true then some (m, d, y) else none) = some (m, d, y)
    rw [if_pos hv]

end JailReport

namespace JailReport

/-- C9 witness: the valid-first-match half applied at a concrete first
page. -/
theorem c9_amended_witness :
    extract_report_date (("REPORT DATE: 1/2/2026").toList) = some (1, 2, 2026) :=
  (c9_amended (("REPORT DATE: 1/2/2026").toList)).2 1 2 2026 (by decide) (by decide)

-- ---------------------------------------------------------------------------
-- The pending/current invariant holds in every reachable assembler state
-- ---------------------------------------------------------------------------

theorem processLine_inv (st : PState) (ln : List Char)
    (h : st.pending.isSome = true → st.current = none) :
    (processLine st ln).pending.isSome = true → (processLine st ln).current = none := by
  by_cases hj : is_junk_line ln = true
  · simpa [processLine, hj] using h
  have hjf : is_junk_line ln = false := by simpa using hj
  have hln : ln ≠ [] := ne_nil_of_not_junk hjf
  have hlnE : ln.isEmpty = false :=
    Bool.eq_false_iff.mpr (fun hx => hln ((isEmpty_iff_nil _).mp hx))
  cases hA : matchNameCidDate ln with
  | some v => obtain ⟨nm, cid, dt⟩ := v; simp [processLine, hjf, hA]
  | none =>
    cases hB : matchCidDate ln with
    | some v => obtain ⟨cid, dt⟩ := v; simp [processLine, hjf, hA, hB]
    | none =>
      cases hp : st.pending with
      | none =>
        intro hs
        simp [processLine, hjf, hA, hB, hp, applyCurrent_pending] at hs
      | some pr =>
        obtain ⟨cid, dt⟩ := pr
        have hcur : st.current = none := h (by rw [hp]; rfl)
        cases hn : matchNameOnly ln with
        | true => simp [processLine, hjf, hA, hB, hp, hn]
        | false =>
          intro hs
          simp [processLine, hjf, hA, hB, hp, hn, applyCurrent_pending, hcur, hlnE] at hs

theorem processLines_inv (lns : List (List Char)) :
    (processLines initState lns).pending.isSome = true →
    (processLines initState lns).current = none := by
  suffices h : ∀ st : PState, (st.pending.isSome = true → st.current = none) →
      ((processLines st lns).pending.isSome = true → (processLines st lns).current = none) by
    exact h initState (fun h2 => absurd h2 (by simp [initState]))
  induction lns with
  | nil => intro st h; exact h
  | cons l rest ih =>
    intro st h
    exact ih (processLine st l) (processLine_inv st l h)

-- ---------------------------------------------------------------------------
-- Finalization only reads the stripped name
-- ---------------------------------------------------------------------------

theorem finalize_congr_name {n1 n2 cid dt : List Char} {A C : List (List Char)}
    (h : pyStrip n1 = pyStrip n2) :
    finalize_record ⟨n1, cid, dt, A, C⟩ = finalize_record ⟨n2, cid, dt, A, C⟩ := by
  simp only [finalize_record]
  rw [h]

-- ---------------------------------------------------------------------------
-- Claim C5: split-header equivalence
-- ---------------------------------------------------------------------------

/-- C5 confirmed: the split header "1234567 1/2/2026" + "SMITH, JOHN"
followed by any one content line produces exactly one record, identical
(in all fields, hence in the identity fields) to the record of the
single-line header case; the working records on both sides carry the same
captured identifier. -/
theorem c5_theorem (c : List Char)
    (hj : is_junk_line (pyStrip c) = false)
    (hA : matchNameCidDate (pyStrip c) = none)
    (hB : matchCidDate (pyStrip c) = none) :
    parseLines (c5SplitLines c) = parseLines (c5SingleLines c) ∧
    (parseLines (c5SplitLines c)).length = 1 ∧
    (processLines initState (prepLines (c5SplitLines c))).current.map Rec0.cid
      = some (("1234567").toList) ∧
    (processLines initState (prepLines (c5SingleLines c))).current.map Rec0.cid
      = some (("1234567").toList) := by
  have hsc : pyStrip c ≠ [] := ne_nil_of_not_junk hj
  have hscE : (pyStrip c).isEmpty = false :=
    Bool.eq_false_iff.mpr (fun hx => hsc ((isEmpty_iff_nil _).mp hx))
  have hprep1 : prepLines (c5SplitLines c)
      = [("1234567 1/2/2026").toList, ("SMITH, JOHN").toList, pyStrip c] := by
    have ha : pyStrip (("1234567 1/2/2026").toList) = ("1234567 1/2/2026").toList := by decide
    have hb : pyStrip (("SMITH, JOHN").toList) = ("SMITH, JOHN").toList := by decide
    show ((c5SplitLines c).map pyStrip).filter (fun l => !l.isEmpty) = _
    rw [show (c5SplitLines c).map pyStrip
        = [pyStrip (("1234567 1/2/2026").toList), pyStrip (("SMITH, JOHN").toList), pyStrip c]
        from rfl]
    rw [ha, hb, List.filter_cons, List.filter_cons, List.filter_cons, List.filter_nil]
    rw [if_pos (by decide), if_pos (by decide), if_pos (by rw [hscE]; rfl)]
  have hprep2 : prepLines (c5SingleLines c)
      = [("SMITH, JOHN   1234567   1/2/2026").toList, pyStrip c] := by
    have ha : pyStrip (("SMITH, JOHN   1234567   1/2/2026").toList)
        = ("SMITH, JOHN   1234567   1/2/2026").toList := by decide
    show ((c5SingleLines c).map pyStrip).filter (fun l => !l.isEmpty) = _
    rw [show (c5SingleLines c).map pyStrip
        = [pyStrip (("SMITH, JOHN   1234567   1/2/2026").toList), pyStrip c] from rfl]
    rw [ha, List.filter_cons, List.filter_cons, List.filter_nil]
    rw [if_pos (by decide), if_pos (by rw [hscE]; rfl)]
  have hstep : ∀ w : Rec0, processLine ⟨[], none, some w⟩ (pyStrip c)
      = ⟨[], none, some (apply_content_line w (pyStrip c))⟩ := by
    intro w
    simp [processLine, hj, hA, hB, applyCurrent]
  have hstate1 : processLines initState (prepLines (c5SplitLines c))
      = ⟨[], none, some ⟨("SMITH, JOHN").toList, ("1234567").toList, ("1/2/2026").toList,
          (contentUpdate [] [] (pyStrip c)).1, (contentUpdate [] [] (pyStrip c)).2⟩⟩ := by
    rw [hprep1]
    show processLine (processLine (processLine initState (("1234567 1/2/2026").toList))
        (("SMITH, JOHN").toList)) (pyStrip c) = _
    rw [show processLine (processLine initState (("1234567 1/2/2026").toList))
        (("SMITH, JOHN").toList)
        = ⟨[], none, some ⟨("SMITH, JOHN").toList, ("1234567").toList, ("1/2/2026").toList, [], []⟩⟩
        from by decide]
    rw [hstep ⟨("SMITH, JOHN").toList, ("1234567").toList, ("1/2/2026").toList, [], []⟩]
    rfl
  have hstate2 : processLines initState (prepLines (c5SingleLines c))
      = ⟨[], none, some ⟨("SMITH, JOHN  ").toList, ("1234567").toList, ("1/2/2026").toList,
          (contentUpdate [] [] (pyStrip c)).1, (contentUpdate [] [] (pyStrip c)).2⟩⟩ := by
    rw [hprep2]
    show processLine (processLine initState (("SMITH, JOHN   1234567   1/2/2026").toList))
        (pyStrip c) = _
    rw [show processLine initState (("SMITH, JOHN   1234567   1/2/2026").toList)
        = ⟨[], none, some ⟨("SMITH, JOHN  ").toList, ("1234567").toList, ("1/2/2026").toList, [], []⟩⟩
        from by decide]
    rw [hstep ⟨("SMITH, JOHN  ").toList, ("1234567").toList, ("1/2/2026").toList, [], []⟩]
    rfl
  have hparse1 : parseLines (c5SplitLines c)
      = [finalize_record ⟨("SMITH, JOHN").toList, ("1234567").toList, ("1/2/2026").toList,
          (contentUpdate [] [] (pyStrip c)).1, (contentUpdate [] [] (pyStrip c)).2⟩] := by
    show (processLines initState (prepLines (c5SplitLines c))).records
        ++ finalizeCurrent (processLines initState (prepLines (c5SplitLines c))).current = _
    rw [hstate1]
    rfl
  have hparse2 : parseLines (c5SingleLines c)
      = [finalize_record ⟨("SMITH, JOHN  ").toList, ("1234567").toList, ("1/2/2026").toList,
          (contentUpdate [] [] (pyStrip c)).1, (contentUpdate [] [] (pyStrip c)).2⟩] := by
    show (processLines initState (prepLines (c5SingleLines c))).records
        ++ finalizeCurrent (processLines initState (prepLines (c5SingleLines c))).current = _
    rw [hstate2]
    rfl
  refine ⟨?_, ?_, ?_, ?_⟩
  · rw [hparse1, hparse2]
    rw [@finalize_congr_name (("SMITH, JOHN").toList) (("SMITH, JOHN  ").toList) _ _ _ _
      (by decide)]
  · rw [hparse1]; rfl
  · rw [hstate1]; rfl
  · rw [hstate2]; rfl

/-- C5 witness: the split-header equivalence at a concrete content line. -/
theorem c5_theorem_witness :
    parseLines (c5SplitLines (("THEFT OF PROPERTY").toList))
      = parseLines (c5SingleLines (("THEFT OF PROPERTY").toList)) :=
  (c5_theorem (("THEFT OF PROPERTY").toList) (by decide) (by decide) (by decide)).1

-- ---------------------------------------------------------------------------
-- Claim C1: the example scenario
-- ---------------------------------------------------------------------------

/-- C1 counterexample: the emitted records of the example scenario do not
carry the identifiers — finalize_record drops the cid, so no field of the
first record contains "1234567". -/
theorem c1_counterexample : ¬ ClaimC1 := by
  intro h
  exact absurd h.2.2.2.2.1 (by decide)

/-- C1 amended: the example scenario yields exactly the two described
records (name, book-in date, city and charge text as specified, the second
record with empty charges and city Unknown); the identifiers 1234567 and
7654321 are captured in the working records while each record is being
assembled, but they are dropped at finalization and are absent from the
emitted records. -/
theorem c1_amended :
    parseLines c1Lines =
      [⟨("SMITH, JOHN").toList, ("1/2/2026").toList, ("Fort Worth").toList,
        ("THEFT OF PROPERTY").toList⟩,
       ⟨("JONES, JANE").toList, ("1/2/2026").toList, ("Unknown").toList, []⟩] ∧
    (processLines initState (prepLines (c1Lines.take 1))).current.map Rec0.cid
      = some (("1234567").toList) ∧
    (processLines initState (prepLines c1Lines)).current.map Rec0.cid
      = some (("7654321").toList) :=
  ⟨by decide, by decide, by decide⟩

end JailReport
